import Mathlib

/-!
Verification development for the oil-inventory front-end
(src/app/page.tsx, snapshot variant).

The embedding models the JavaScript/TypeScript source shallowly:
* JS strings are Lean `String` (a wrapper around `List Char`); the JS
  string operations used by the source (`split` on a one-character
  separator, `trim`, template-literal number formatting) are modelled by
  executable character-list functions below.
* JS numbers are modelled by `Int` (quantities, years) and `Rat` (raw
  user input before `Math.floor`); `Number(string)` conversion is
  modelled by `jsNumber`, restricted to integer numerals — the only
  numerals the application itself produces.  Non-integer numeric
  notations (decimals, exponents, hex, `Infinity`) are modelled as NaN
  (`none`).
* JS objects used as string-keyed dictionaries are insertion-ordered
  association lists `List (String × α)`; `NaN` poisoning of a totals
  slot is modelled by an `Option Int` value (`none` = NaN).
-/

namespace OilInv

/-- The character for decimal digit `d` (`d < 10`), i.e. code point `48 + d`. -/
def digitOfNat (d : Nat) : Char := Char.ofNat (48 + d)

/-- Fuel-driven little-endian decimal digits of a natural number.
With fuel at least `n + 1` this computes the full digit list of `n`. -/
def toDigitsRevFuel : Nat → Nat → List Char
  | 0, _ => []
  | f + 1, n => if n < 10 then [digitOfNat n] else digitOfNat (n % 10) :: toDigitsRevFuel f (n / 10)

/-- Big-endian decimal digit characters of a natural number. -/
def natReprChars (n : Nat) : List Char := (toDigitsRevFuel (n + 1) n).reverse

/-- Decimal representation of a natural number, modelling the JS
template-literal rendering of a non-negative integer. -/
def natRepr (n : Nat) : String := String.mk (natReprChars n)

/-- Characters of the decimal representation of an integer (a leading
minus sign for negative values), modelling JS number-to-string. -/
def intReprChars (y : Int) : List Char :=
  if y < 0 then '-' :: natReprChars (-y).toNat else natReprChars y.toNat

/-- Decimal representation of an integer, modelling JS number-to-string
for integer values. -/
def intRepr (y : Int) : String := String.mk (intReprChars y)

/-- Left fold of decimal digits; `none` as soon as a non-digit character
is met. -/
def parseDigitsAux : Nat → List Char → Option Nat
  | acc, [] => some acc
  | acc, c :: cs => if c.isDigit then parseDigitsAux (10 * acc + (c.toNat - 48)) cs else none

/-- Parses a non-empty all-digit character list to its value; `none`
otherwise. -/
def parseDigits (l : List Char) : Option Nat :=
  match l with
  | [] => none
  | _ :: _ => parseDigitsAux 0 l

/-- Whitespace characters trimmed by the JS `Number` conversion (ASCII
subset). -/
def isJsSpace (c : Char) : Bool :=
  c == ' ' || c == '\t' || c == '\n' || c == '\r' || c == '\x0b' || c == '\x0c'

/-- Strip leading and trailing JS whitespace from a character list
(model of JS `String.prototype.trim`). -/
def trimChars (l : List Char) : List Char :=
  ((l.dropWhile isJsSpace).reverse.dropWhile isJsSpace).reverse

/-- Signed integer numeral parser: empty input is `0` (as in JS
`Number("") = 0`), an optional single leading sign, then digits.
`none` models NaN. -/
def parseSigned (l : List Char) : Option Int :=
  match l with
  | [] => some 0
  | c :: rest =>
    if c == '-' then (parseDigits rest).map (fun n => -(Int.ofNat n))
    else if c == '+' then (parseDigits rest).map (fun n => Int.ofNat n)
    else (parseDigits (c :: rest)).map (fun n => Int.ofNat n)

/-- Model of the JS `Number(string)` conversion, restricted to integer
numerals (see the file comment): whitespace-trims, then parses an
optionally signed decimal integer; `none` models NaN. -/
def jsNumber (s : String) : Option Int := parseSigned (trimChars s.data)

/-! ### Basic facts about the decimal representation -/

theorem toDigitsRevFuel_congr : ∀ (f g n : Nat), n < f → n < g →
    toDigitsRevFuel f n = toDigitsRevFuel g n := by
  intro f
  induction f with
  | zero => intro g n h; omega
  | succ f ih =>
    intro g n hf hg
    match g with
    | 0 => omega
    | g + 1 =>
      simp only [toDigitsRevFuel]
      by_cases h10 : n < 10
      · simp [h10]
      · simp only [h10, if_false]
        have hdiv : n / 10 < n := Nat.div_lt_self (by omega) (by omega)
        rw [ih g (n / 10) (by omega) (by omega)]

theorem natReprChars_lt (n : Nat) (h : n < 10) : natReprChars n = [digitOfNat n] := by
  simp [natReprChars, toDigitsRevFuel, h]

theorem natReprChars_ge (n : Nat) (h : 10 ≤ n) :
    natReprChars n = natReprChars (n / 10) ++ [digitOfNat (n % 10)] := by
  show (toDigitsRevFuel (n + 1) n).reverse = _
  rw [show toDigitsRevFuel (n + 1) n = digitOfNat (n % 10) :: toDigitsRevFuel n (n / 10) by
    simp [toDigitsRevFuel, Nat.not_lt.mpr h]]
  rw [List.reverse_cons]
  rw [toDigitsRevFuel_congr n (n / 10 + 1) (n / 10)
    (by have := Nat.div_lt_self (show 0 < n by omega) (show 1 < 10 by omega); omega) (by omega)]
  rfl

theorem digitOfNat_isDigit (d : Nat) (h : d < 10) : (digitOfNat d).isDigit = true := by
  interval_cases d <;> decide

theorem digitOfNat_val (d : Nat) (h : d < 10) : (digitOfNat d).toNat - 48 = d := by
  interval_cases d <;> decide

theorem natReprChars_all_digit (n : Nat) : ∀ c ∈ natReprChars n, c.isDigit = true := by
  induction n using Nat.strong_induction_on with
  | _ n ih =>
    by_cases h : n < 10
    · rw [natReprChars_lt n h]
      intro c hc
      simp at hc
      subst hc
      exact digitOfNat_isDigit n h
    · rw [natReprChars_ge n (by omega)]
      intro c hc
      rcases List.mem_append.mp hc with h1 | h2
      · exact ih (n / 10) (Nat.div_lt_self (by omega) (by omega)) c h1
      · simp at h2
        subst h2
        exact digitOfNat_isDigit _ (Nat.mod_lt _ (by omega))

theorem natReprChars_ne_nil (n : Nat) : natReprChars n ≠ [] := by
  by_cases h : n < 10
  · rw [natReprChars_lt n h]; simp
  · rw [natReprChars_ge n (by omega)]; simp

theorem parseDigitsAux_append (xs ys : List Char) (acc : Nat) :
    parseDigitsAux acc (xs ++ ys) =
      match parseDigitsAux acc xs with
      | some a => parseDigitsAux a ys
      | none => none := by
  induction xs generalizing acc with
  | nil => simp [parseDigitsAux]
  | cons c cs ih =>
    simp only [List.cons_append, parseDigitsAux]
    by_cases hd : c.isDigit
    · simp [hd, ih]
    · simp [hd]

theorem parseDigitsAux_natReprChars (n : Nat) : ∀ acc : Nat,
    parseDigitsAux acc (natReprChars n) = some (acc * 10 ^ (natReprChars n).length + n) := by
  induction n using Nat.strong_induction_on with
  | _ n ih =>
    intro acc
    by_cases h : n < 10
    · rw [natReprChars_lt n h]
      simp [parseDigitsAux, digitOfNat_isDigit n h, digitOfNat_val n h]
      omega
    · rw [natReprChars_ge n (by omega)]
      rw [parseDigitsAux_append]
      have hdiv : n / 10 < n := Nat.div_lt_self (by omega) (by omega)
      rw [ih (n / 10) hdiv acc]
      have hm : n % 10 < 10 := Nat.mod_lt _ (by omega)
      have hstep : parseDigitsAux (acc * 10 ^ (natReprChars (n / 10)).length + n / 10)
          [digitOfNat (n % 10)] =
          some (10 * (acc * 10 ^ (natReprChars (n / 10)).length + n / 10) + n % 10) := by
        simp [parseDigitsAux, digitOfNat_isDigit _ hm, digitOfNat_val _ hm]
      dsimp only
      rw [hstep]
      congr 1
      simp only [List.length_append, List.length_cons, List.length_nil]
      rw [pow_succ]
      generalize (10 : Nat) ^ (natReprChars (n / 10)).length = A
      have hmul : acc * (A * 10) = acc * A * 10 := by ring
      rw [hmul]
      generalize acc * A = B
      omega

theorem parseDigits_natReprChars (n : Nat) : parseDigits (natReprChars n) = some n := by
  have hne := natReprChars_ne_nil n
  have h := parseDigitsAux_natReprChars n 0
  match hl : natReprChars n with
  | [] => exact absurd hl hne
  | c :: cs =>
    rw [hl] at h
    simp [parseDigits, h]

theorem space_not_digit (c : Char) (hs : isJsSpace c = true) : c.isDigit = false := by
  simp only [isJsSpace, Bool.or_eq_true, beq_iff_eq] at hs
  rcases hs with ((((h | h) | h) | h) | h) | h <;> subst h <;> decide

theorem isDigit_not_space (c : Char) (h : c.isDigit = true) : isJsSpace c = false := by
  cases hs : isJsSpace c
  · rfl
  · rw [space_not_digit c hs] at h
    cases h

theorem isDigit_ne_char (c : Char) (h : c.isDigit = true) (d : Char)
    (hd : d.isDigit = false) : c ≠ d := by
  intro he
  subst he
  rw [h] at hd
  cases hd

theorem trimChars_eq_self (l : List Char) (h : ∀ c ∈ l, isJsSpace c = false) :
    trimChars l = l := by
  unfold trimChars
  have h1 : l.dropWhile isJsSpace = l := by
    cases l with
    | nil => rfl
    | cons a t =>
      rw [List.dropWhile_cons, if_neg]
      simp [h a (by simp)]
  rw [h1]
  have h2 : l.reverse.dropWhile isJsSpace = l.reverse := by
    cases hr : l.reverse with
    | nil => rfl
    | cons a t =>
      rw [List.dropWhile_cons, if_neg]
      have ha : a ∈ l := by
        have hm : a ∈ l.reverse := by rw [hr]; simp
        simpa using hm
      simp [h a ha]
  rw [h2, List.reverse_reverse]

theorem intReprChars_mem (y : Int) : ∀ c ∈ intReprChars y, c = '-' ∨ c.isDigit = true := by
  intro c hc
  unfold intReprChars at hc
  by_cases hy : y < 0
  · rw [if_pos hy] at hc
    rcases List.mem_cons.mp hc with h | h
    · exact Or.inl h
    · exact Or.inr (natReprChars_all_digit _ c h)
  · rw [if_neg hy] at hc
    exact Or.inr (natReprChars_all_digit _ c hc)

theorem intReprChars_ne_nil (y : Int) : intReprChars y ≠ [] := by
  unfold intReprChars
  by_cases hy : y < 0
  · simp [hy]
  · simp [hy, natReprChars_ne_nil]

theorem intReprChars_not_space (y : Int) : ∀ c ∈ intReprChars y, isJsSpace c = false := by
  intro c hc
  rcases intReprChars_mem y c hc with h | h
  · subst h; decide
  · exact isDigit_not_space c h

theorem jsNumber_intRepr (y : Int) : jsNumber (intRepr y) = some y := by
  unfold jsNumber intRepr
  rw [show (String.mk (intReprChars y)).data = intReprChars y from rfl]
  rw [trimChars_eq_self _ (intReprChars_not_space y)]
  unfold intReprChars
  by_cases hy : y < 0
  · rw [if_pos hy]
    have hstep : parseSigned ('-' :: natReprChars (-y).toNat) =
        (parseDigits (natReprChars (-y).toNat)).map (fun n => -(Int.ofNat n)) := rfl
    rw [hstep, parseDigits_natReprChars]
    have h1 : Int.ofNat (-y).toNat = -y := Int.toNat_of_nonneg (show (0 : Int) ≤ -y by omega)
    rw [show Option.map (fun n => -(Int.ofNat n)) (some (-y).toNat) =
      some (-(Int.ofNat (-y).toNat)) from rfl, h1, neg_neg]
  · rw [if_neg hy]
    have hne := natReprChars_ne_nil y.toNat
    match hl : natReprChars y.toNat with
    | [] => exact absurd hl hne
    | c :: cs =>
      have hcd : c.isDigit = true := natReprChars_all_digit y.toNat c (by rw [hl]; simp)
      have hc1 : (c == '-') = false := by
        simp only [beq_eq_false_iff_ne, ne_eq]
        exact isDigit_ne_char c hcd '-' (by decide)
      have hc2 : (c == '+') = false := by
        simp only [beq_eq_false_iff_ne, ne_eq]
        exact isDigit_ne_char c hcd '+' (by decide)
      have hpd : parseDigits (c :: cs) = some y.toNat := by
        rw [← hl]; exact parseDigits_natReprChars y.toNat
      have h1 : Int.ofNat y.toNat = y := Int.toNat_of_nonneg (show (0 : Int) ≤ y by omega)
      simp [parseSigned, hc1, hc2, hpd, h1]
      omega

/-! ### Character-level split functions (models of JS String.prototype.split) -/

/-- Model of the JS `split` with a one-character separator: maximal
split, keeping empty chunks, `[""]` on empty input. -/
def splitOnCharFn (sep : Char) : List Char → List (List Char)
  | [] => [[]]
  | c :: cs =>
    if c == sep then [] :: splitOnCharFn sep cs
    else
      match splitOnCharFn sep cs with
      | [] => [[c]]
      | h :: t => (c :: h) :: t

theorem splitOnCharFn_ne_nil (sep : Char) (l : List Char) : splitOnCharFn sep l ≠ [] := by
  induction l with
  | nil => simp [splitOnCharFn]
  | cons c cs ih =>
    simp only [splitOnCharFn]
    by_cases h : c == sep
    · simp [h]
    · simp only [h, Bool.false_eq_true, if_false]
      match hs : splitOnCharFn sep cs with
      | [] => exact absurd hs ih
      | a :: t => simp

theorem splitOnCharFn_no_sep (sep : Char) (l : List Char) (h : ∀ c ∈ l, c ≠ sep) :
    splitOnCharFn sep l = [l] := by
  induction l with
  | nil => rfl
  | cons c cs ih =>
    have hc : (c == sep) = false := by
      simp only [beq_eq_false_iff_ne, ne_eq]
      exact h c (by simp)
    simp only [splitOnCharFn, hc, Bool.false_eq_true, if_false]
    rw [ih (fun a ha => h a (by simp [ha]))]

theorem splitOnCharFn_append (sep : Char) (xs ys : List Char) (h : ∀ c ∈ xs, c ≠ sep) :
    splitOnCharFn sep (xs ++ sep :: ys) = xs :: splitOnCharFn sep ys := by
  induction xs with
  | nil => simp [splitOnCharFn]
  | cons c cs ih =>
    have hc : (c == sep) = false := by
      simp only [beq_eq_false_iff_ne, ne_eq]
      exact h c (by simp)
    simp only [List.cons_append, splitOnCharFn, hc, Bool.false_eq_true, if_false, List.append_eq]
    rw [ih (fun a ha => h a (by simp [ha]))]

/-- JS `s.split(sep)` for a one-character separator, as strings. -/
def jsSplit (sep : Char) (s : String) : List String :=
  (splitOnCharFn sep s.data).map String.mk

/-- Remove one trailing carriage return, if present. -/
def stripCR (l : List Char) : List Char :=
  match l.reverse with
  | [] => l
  | c :: t => if c == '\r' then t.reverse else l

/-- Model of the JS split on the regex matching an optional carriage
return followed by a newline: split on newlines, then strip one
trailing carriage return from each chunk. -/
def splitLinesChars (l : List Char) : List (List Char) :=
  (splitOnCharFn '\n' l).map stripCR

theorem stripCR_eq_self (l : List Char) (h : '\r' ∉ l) : stripCR l = l := by
  unfold stripCR
  cases hr : l.reverse with
  | nil => rfl
  | cons c t =>
    have hc : c ∈ l := by
      have hm : c ∈ l.reverse := by rw [hr]; simp
      simpa using hm
    have hne : (c == '\r') = false := by
      simp only [beq_eq_false_iff_ne, ne_eq]
      exact fun he => h (he ▸ hc)
    simp [hne]

/-! ### Domain model (types from src/app/page.tsx) -/

/-- A warehouse: slug-like id plus human label. -/
structure Warehouse where
  id : String
  name : String
deriving DecidableEq

/-- An inventory coordinate.  The source casts the lot and format
segments without validating them, so they are modelled as strings; the
`wellFormed` predicate below carves out the valid enum values. -/
structure ItemKey where
  year : Int
  lot : String
  format : String
  warehouseId : String
deriving DecidableEq

/-- The three lots, in declaration order. -/
def LOTS : List String := ["A", "B", "C"]

/-- The three formats, in declaration order. -/
def FORMATS : List String := ["500ml", "250ml", "5L"]

/-- `keyOf`: the template literal joining the four fields with
underscores. -/
def keyOf (k : ItemKey) : String :=
  intRepr k.year ++ "_" ++ k.lot ++ "_" ++ k.format ++ "_" ++ k.warehouseId

/-- JS `Number` applied to a possibly-undefined cell
(`Number(undefined)` is NaN). -/
def jsNumberU : Option String → Option Int
  | none => none
  | some s => jsNumber s

/-- `parseKey`: split on underscores, destructure the first four
segments (extra segments are discarded), reject when the year is NaN
or `0` or any of the other three segments is missing or empty. -/
def parseKey (s : String) : Option ItemKey :=
  let parts := jsSplit '_' s
  match jsNumberU (parts.get? 0), parts.get? 1, parts.get? 2, parts.get? 3 with
  | some year, some l, some f, some w =>
    if year == 0 || l == "" || f == "" || w == "" then none
    else some ⟨year, l, f, w⟩
  | _, _, _, _ => none

/-- Characters of the slug alphabet used for warehouse ids. -/
def isSlugChar (ch : Char) : Bool :=
  (decide ('a' ≤ ch) && decide (ch ≤ 'z')) || (decide ('0' ≤ ch) && decide (ch ≤ '9')) || ch == '-'

/-- A well-formed coordinate in the sense of the specification: positive
integer year, declared lot and format, non-empty slug warehouse id. -/
def wellFormed (c : ItemKey) : Bool :=
  decide (1 ≤ c.year) && LOTS.contains c.lot && FORMATS.contains c.format &&
    c.warehouseId != "" && c.warehouseId.data.all isSlugChar

/-! ### JS objects as insertion-ordered association lists -/

/-- Property read `m[k]`: `none` models `undefined`. -/
def getA {α : Type} (m : List (String × α)) (k : String) : Option α :=
  (m.find? (fun p => p.1 == k)).map (fun p => p.2)

/-- Property write `m[k] = v`: updates in place when the key exists,
appends otherwise (JS insertion order for non-index string keys). -/
def setA {α : Type} (m : List (String × α)) (k : String) (v : α) : List (String × α) :=
  if (m.find? (fun p => p.1 == k)).isSome then
    m.map (fun p => if p.1 == k then (k, v) else p)
  else m ++ [(k, v)]

/-- `m[k] || 0`: quantity lookup defaulting to zero. -/
def lookupOr0 (m : List (String × Int)) (k : String) : Int := (getA m k).getD 0

/-! ### Year-set helpers -/

/-- One JS `Set.add`: appends unless already present. -/
def addYearToSet (l : List Int) (y : Int) : List Int := if l.contains y then l else l ++ [y]

/-- `new Set(list)` in insertion order. -/
def dedupKeepFirst (l : List Int) : List Int := l.foldl addYearToSet []

/-- Insert into a descending-sorted list. -/
def insertDesc (x : Int) : List Int → List Int
  | [] => [x]
  | y :: ys => if x ≥ y then x :: y :: ys else y :: insertDesc x ys

/-- `array.sort((a, b) => b - a)`: sort descending. -/
def sortDesc (l : List Int) : List Int := l.foldr insertDesc []

/-! ### Grid builder -/

/-- One displayed line of the stock table. -/
structure GridRow where
  year : Int
  lot : String
  format : String
  totals : List (String × Int)
deriving DecidableEq

/-- The unfiltered cross product `years × LOTS × FORMATS`, each row
holding one totals cell per warehouse (the `makeRows` array of the
source `useMemo`). -/
def makeRows (years : List Int) (warehouses : List Warehouse)
    (quantities : List (String × Int)) : List GridRow :=
  (sortDesc years).flatMap (fun year =>
    LOTS.flatMap (fun lot =>
      FORMATS.map (fun format =>
        { year := year, lot := lot, format := format,
          totals := warehouses.map (fun w =>
            (w.id, lookupOr0 quantities (keyOf ⟨year, lot, format, w.id⟩))) })))

/-- ASCII model of JS `toLowerCase`. -/
def toLowerChars (l : List Char) : List Char :=
  l.map (fun c => if decide ('A' ≤ c) && decide (c ≤ 'Z') then Char.ofNat (c.toNat + 32) else c)

/-- Is the first list a contiguous prefix of the second? -/
def isPrefixChars : List Char → List Char → Bool
  | [], _ => true
  | _ :: _, [] => false
  | a :: as, b :: bs => a == b && isPrefixChars as bs

/-- Model of JS `String.prototype.includes`: needle occurs contiguously
in the haystack. -/
def isInfixChars (needle : List Char) : List Char → Bool
  | [] => isPrefixChars needle []
  | c :: t => isPrefixChars needle (c :: t) || isInfixChars needle t

/-- The free-text search predicate of the grid: lower-cased needle
against the stringified year, lot and format. -/
def searchMatches (sLow : List Char) (r : GridRow) : Bool :=
  isInfixChars sLow (intRepr r.year).data || isInfixChars sLow (toLowerChars r.lot.data) ||
    isInfixChars sLow (toLowerChars r.format.data)

/-- The `rows` memo: cross product, then the year filter, then the
free-text search filter. `none` as year filter models the value
"all". -/
def gridRows (years : List Int) (warehouses : List Warehouse)
    (quantities : List (String × Int)) (filterYear : Option Int) (search : String) :
    List GridRow :=
  let base := makeRows years warehouses quantities
  let filtered := match filterYear with
    | none => base
    | some z => base.filter (fun r => r.year == z)
  if trimChars search.data != [] then
    filtered.filter (searchMatches (toLowerChars (trimChars search.data)))
  else filtered

/-- The displayed row total: fold over the warehouse columns of one
row. -/
def rowTotal (warehouses : List Warehouse) (r : GridRow) : Int :=
  warehouses.foldl (fun s w => s + lookupOr0 r.totals w.id) 0

/-! ### Totals aggregator -/

/-- Does a coordinate year pass the active year filter? -/
def matchesYearFilter (filterYear : Option Int) (y : Int) : Bool :=
  match filterYear with
  | none => true
  | some z => y == z

/-- One iteration of the `grandTotals` loop.  Values are `Option Int`:
`none` models the NaN produced by `undefined + qty` when the decoded
warehouse id has no slot in the accumulator. -/
def grandTotalsStep (filterYear : Option Int) (m : List (String × Option Int))
    (p : String × Int) : List (String × Option Int) :=
  match parseKey p.1 with
  | none => m
  | some c =>
    if matchesYearFilter filterYear c.year then
      match getA m c.warehouseId with
      | some (some a) => setA m c.warehouseId (some (a + p.2))
      | some none => setA m c.warehouseId none
      | none => setA m c.warehouseId none
    else m

/-- The `grandTotals` memo: per-warehouse totals over the whole
snapshot, respecting the year filter. -/
def grandTotals (warehouses : List Warehouse) (quantities : List (String × Int))
    (filterYear : Option Int) : List (String × Option Int) :=
  quantities.foldl (grandTotalsStep filterYear) (warehouses.map (fun w => (w.id, some 0)))

/-- `Object.values(grandTotals).reduce((a, b) => a + b, 0)` with NaN
propagation. -/
def sumValuesJs (m : List (String × Option Int)) : Option Int :=
  m.foldl (fun acc p =>
    match acc, p.2 with
    | some a, some b => some (a + b)
    | _, _ => none) (some 0)

/-! ### Quantity store mutations -/

/-- The component state touched by the store operations. -/
structure AppState where
  warehouses : List Warehouse
  years : List Int
  quantities : List (String × Int)
deriving DecidableEq

/-- `Math.max(0, Math.floor(v))`. -/
def jsClamp (v : Rat) : Int := max 0 ⌊v⌋

/-- `setQty`: clamp, then write the in-memory map at the encoded key.
The asynchronous Supabase upsert is external I/O and not modelled. -/
def setQty (st : AppState) (k : ItemKey) (v : Rat) : AppState :=
  { st with quantities := setA st.quantities (keyOf k) (jsClamp v) }

/-- `adjust`: read the current value (default 0) and delegate to
`setQty`. -/
def adjust (st : AppState) (k : ItemKey) (delta : Rat) : AppState :=
  setQty st k ((lookupOr0 st.quantities (keyOf k) : Rat) + delta)

/-- `addYear`: prompt result (`none` models a cancelled prompt), JS
falsiness and range checks, then set-union and descending sort. -/
def addYear (prev : List Int) (input : Option String) : List Int :=
  match input with
  | none => prev
  | some y =>
    if y == "" then prev
    else
      match jsNumber y with
      | none => prev
      | some n =>
        if n == 0 || decide (n < 2000) || decide (2100 < n) then prev
        else sortDesc (dedupKeepFirst (prev ++ [n]))

/-- The quantity map built by the load effect from fetched rows. -/
def hydrateQuantities (rows : List (ItemKey × Int)) : List (String × Int) :=
  rows.foldl (fun m r => setA m (keyOf r.1) r.2) []

/-- The year set after the load effect: replaced by the distinct years
of the fetched rows when non-empty, otherwise left unchanged. -/
def hydrateYears (prev : List Int) (rows : List (ItemKey × Int)) : List Int :=
  let ny := dedupKeepFirst (rows.map (fun r => r.1.year))
  if ny.length > 0 then sortDesc ny else prev

/-! ### CSV codec -/

/-- `csvEscape`: quote and double internal quotes when the field
contains a comma, quote or newline. -/
def csvEscape (s : String) : String :=
  if s.data.any (fun c => c == ',' || c == '"' || c == '\n') then
    String.mk ('"' :: (s.data.map (fun c => if c == '"' then ['"', '"'] else [c])).flatten ++ ['"'])
  else s

/-- Join chunks with a separator (model of JS `Array.prototype.join`). -/
def intercalChars (sep : List Char) : List (List Char) → List Char
  | [] => []
  | [x] => x
  | x :: xs => x ++ sep ++ intercalChars sep xs

/-- Join fields with commas. -/
def joinComma (fields : List String) : String :=
  String.mk (intercalChars [','] (fields.map String.data))

/-- Join lines with newlines. -/
def joinNl (lines : List String) : String :=
  String.mk (intercalChars ['\n'] (lines.map String.data))

/-- The export header line. -/
def csvHeader : String := "year,lot,format,warehouse,qty"

/-- The text produced by `exportCSV` (the blob download itself is
external I/O): header plus one line per decodable snapshot entry. -/
def exportCSVText (quantities : List (String × Int)) : String :=
  joinNl (csvHeader :: quantities.filterMap (fun p =>
    (parseKey p.1).map (fun c =>
      joinComma ([intRepr c.year, c.lot, c.format, c.warehouseId, intRepr p.2].map csvEscape))))

/-- The non-empty lines of an imported CSV text
(`text.split` on newline boundaries, then `filter(Boolean)`). -/
def csvLines (text : String) : List String :=
  ((splitLinesChars text.data).map String.mk).filter (fun s => s != "")

/-- The body of the `importCSV` row loop: one data row either fails
validation (accumulator unchanged, the `continue`) or contributes its
clamped record to the quantity map, the year set, and the `ups`
batch. -/
def importRowStep (iYear iLot iFormat iWh iQty : Nat)
    (acc : List (String × Int) × List Int × List (ItemKey × Int)) (r : String) :
    List (String × Int) × List Int × List (ItemKey × Int) :=
  let cells := jsSplit ',' r
  match jsNumberU (cells.get? iYear), cells.get? iLot, cells.get? iFormat,
      cells.get? iWh, jsNumberU (cells.get? iQty) with
  | some year, some lotS, some formatS, some whS, some qty =>
    if year == 0 || lotS == "" || formatS == "" || whS == "" then acc
    else
      (setA acc.1 (keyOf ⟨year, lotS, formatS, whS⟩) (max 0 qty),
        addYearToSet acc.2.1 year,
        acc.2.2 ++ [(⟨year, lotS, formatS, whS⟩, max 0 qty)])
  | _, _, _, _, _ => acc

/-- The pure parsing and state-building part of `importCSV`.  `none`
models the thrown error (missing required column, or no lines at all so
that reading the header throws).  On success it returns the new
quantity map, the new year list, and the accepted `ups` batch; rows
failing validation are skipped. -/
def importCSVPure (quantities : List (String × Int)) (years : List Int) (text : String) :
    Option (List (String × Int) × List Int × List (ItemKey × Int)) :=
  match csvLines text with
  | [] => none
  | header :: rows =>
    let cols := (jsSplit ',' header).map (fun s => String.mk (trimChars s.data))
    match cols.findIdx? (fun c => c == "year"), cols.findIdx? (fun c => c == "lot"),
        cols.findIdx? (fun c => c == "format"), cols.findIdx? (fun c => c == "warehouse"),
        cols.findIdx? (fun c => c == "qty") with
    | some iYear, some iLot, some iFormat, some iWh, some iQty =>
      let out := rows.foldl (importRowStep iYear iLot iFormat iWh iQty)
        (quantities, dedupKeepFirst years, ([] : List (ItemKey × Int)))
      some (out.1, sortDesc out.2.1, out.2.2)
    | _, _, _, _, _ => none

example : natRepr 2024 = "2024" := by decide

example : keyOf ⟨2024, "A", "500ml", "roma"⟩ = "2024_A_500ml_roma" := by decide

example : parseKey "2024_A_500ml_roma" = some ⟨2024, "A", "500ml", "roma"⟩ := by decide

example : parseKey "2024_A_500ml_roma_x" = some ⟨2024, "A", "500ml", "roma"⟩ := by decide

example : parseKey "0_A_500ml_roma" = none := by decide

example : jsNumber "-17" = some (-17) := by decide

/-- Specification-side restatement of the header check: there is a
first non-empty line and its trimmed comma-separated cells include all
five required column names. -/
def headerOk (text : String) : Bool :=
  match csvLines text with
  | [] => false
  | header :: _ =>
    let cols := (jsSplit ',' header).map (fun s => String.mk (trimChars s.data))
    cols.contains "year" && cols.contains "lot" && cols.contains "format" &&
      cols.contains "warehouse" && cols.contains "qty"

/-- Specification-side restatement of the per-row import logic: the
accepted record of one data row, or `none` when the row fails
validation.  Stated separately from `importCSVPure` so that the
skip-or-accept behaviour of the fold can be proved as a theorem rather
than read off a definition. -/
def specRowRecord (iYear iLot iFormat iWh iQty : Nat) (r : String) : Option (ItemKey × Int) :=
  let cells := jsSplit ',' r
  match jsNumberU (cells.get? iYear), cells.get? iLot, cells.get? iFormat,
      cells.get? iWh, jsNumberU (cells.get? iQty) with
  | some year, some lotS, some formatS, some whS, some qty =>
    if year == 0 || lotS == "" || formatS == "" || whS == "" then none
    else some (⟨year, lotS, formatS, whS⟩, max 0 qty)
  | _, _, _, _, _ => none

/-- A snapshot entry whose key is the canonical encoding of a
well-formed coordinate with a known year and warehouse. -/
def canonicalEntry (years : List Int) (ids : List String) (p : String × Int) : Bool :=
  match parseKey p.1 with
  | some c => wellFormed c && p.1 == keyOf c && years.contains c.year &&
      ids.contains c.warehouseId
  | none => false

/-- A snapshot entry that survives a CSV round trip: canonical
well-formed key and non-negative value. -/
def exportableEntry (p : String × Int) : Bool :=
  match parseKey p.1 with
  | some c => wellFormed c && p.1 == keyOf c && decide (0 ≤ p.2)
  | none => false

/-- Sum of the quantities of the snapshot entries whose decoded
coordinate passes the year filter and names the given warehouse. -/
def matchSum (quantities : List (String × Int)) (filterYear : Option Int) (wid : String) : Int :=
  (quantities.filterMap (fun p =>
    match parseKey p.1 with
    | some c =>
      if matchesYearFilter filterYear c.year && c.warehouseId == wid then some p.2 else none
    | none => none)).sum

/-- Sum of the quantities of all snapshot entries whose decoded
coordinate passes the year filter. -/
def matchTotal (quantities : List (String × Int)) (filterYear : Option Int) : Int :=
  (quantities.filterMap (fun p =>
    match parseKey p.1 with
    | some c => if matchesYearFilter filterYear c.year then some p.2 else none
    | none => none)).sum

/-- Does some snapshot entry decode to a coordinate that passes the
year filter and names the given warehouse? -/
def hasMatch (quantities : List (String × Int)) (filterYear : Option Int) (wid : String) : Bool :=
  quantities.any (fun p =>
    match parseKey p.1 with
    | some c => matchesYearFilter filterYear c.year && c.warehouseId == wid
    | none => false)

/-- The coordinates enumerated by the grid for one year, flattened
(lots × formats × warehouses); a bookkeeping view of the cells the Grid
Builder reads for that year. -/
def enumCoords (warehouses : List Warehouse) (y : Int) : List ItemKey :=
  LOTS.flatMap (fun lot =>
    FORMATS.flatMap (fun format =>
      warehouses.map (fun w => ⟨y, lot, format, w.id⟩)))

/-! ### Association-list lemmas -/

theorem find?_append {α : Type} (l₁ l₂ : List α) (p : α → Bool) :
    (l₁ ++ l₂).find? p =
      match l₁.find? p with
      | some x => some x
      | none => l₂.find? p := by
  induction l₁ with
  | nil => simp
  | cons a t ih =>
    by_cases h : p a
    · simp [List.find?_cons, h]
    · simp only [List.cons_append, List.find?_cons, h, Bool.false_eq_true, if_false]
      simpa [h] using ih

theorem find?_cons_eq {α : Type} (f : α → Bool) (a : α) (l : List α) :
    (a :: l).find? f = if f a then some a else l.find? f := by
  cases hfa : f a <;> simp [List.find?, hfa]

theorem find?_map_update {α : Type} (m : List (String × α)) (k : String) (v : α) :
    (m.map (fun p => if p.1 == k then (k, v) else p)).find? (fun p => p.1 == k) =
      (m.find? (fun p => p.1 == k)).map (fun _ => (k, v)) := by
  induction m with
  | nil => simp
  | cons p t ih =>
    simp [List.find?_map] at ih
    rw [List.map_cons, find?_cons_eq, find?_cons_eq]
    cases h : (p.1 == k) with
    | true => simp [h]
    | false => simp [h, ih]

theorem find?_map_update_ne {α : Type} (m : List (String × α)) (k k' : String) (v : α)
    (hne : k ≠ k') :
    (m.map (fun p => if p.1 == k then (k, v) else p)).find? (fun p => p.1 == k') =
      m.find? (fun p => p.1 == k') := by
  induction m with
  | nil => simp
  | cons p t ih =>
    simp [List.find?_map] at ih
    rw [List.map_cons, find?_cons_eq, find?_cons_eq]
    cases h : (p.1 == k) with
    | true =>
      have hk : p.1 = k := beq_iff_eq.mp h
      have h2 : (k == k') = false := beq_eq_false_iff_ne.mpr hne
      have h3 : (p.1 == k') = false := beq_eq_false_iff_ne.mpr (hk ▸ hne)
      simp [h, h2, h3, ih]
    | false =>
      cases h' : (p.1 == k') <;> simp [h, h', ih]

theorem getA_setA_self {α : Type} (m : List (String × α)) (k : String) (v : α) :
    getA (setA m k v) k = some v := by
  unfold setA
  by_cases hs : (m.find? (fun p => p.1 == k)).isSome
  · rw [if_pos hs]
    unfold getA
    rw [find?_map_update]
    rcases Option.isSome_iff_exists.mp hs with ⟨w, hw⟩
    rw [hw]
    rfl
  · rw [if_neg hs]
    unfold getA
    rw [find?_append]
    have hnone : m.find? (fun p => p.1 == k) = none := by
      cases h : m.find? (fun p => p.1 == k)
      · rfl
      · rw [h] at hs; simp at hs
    rw [hnone]
    simp [List.find?_cons]

theorem getA_setA_ne {α : Type} (m : List (String × α)) (k k' : String) (v : α)
    (hne : k' ≠ k) : getA (setA m k v) k' = getA m k' := by
  unfold setA
  by_cases hs : (m.find? (fun p => p.1 == k)).isSome
  · rw [if_pos hs]
    unfold getA
    rw [find?_map_update_ne m k k' v (fun he => hne he.symm)]
  · rw [if_neg hs]
    unfold getA
    rw [find?_append]
    have h2 : (k == k') = false := beq_eq_false_iff_ne.mpr (fun he => hne he.symm)
    cases h : m.find? (fun p => p.1 == k')
    · simp [List.find?_cons, h2]
    · simp

theorem keys_setA_mem {α : Type} (m : List (String × α)) (k : String) (v : α)
    (hs : (m.find? (fun p => p.1 == k)).isSome) :
    (setA m k v).map (fun p => p.1) = m.map (fun p => p.1) := by
  unfold setA
  rw [if_pos hs, List.map_map]
  apply List.map_congr_left
  intro p _
  by_cases h : p.1 = k
  · simp [h]
  · simp [beq_eq_false_iff_ne.mpr h, h]

theorem keys_setA_new {α : Type} (m : List (String × α)) (k : String) (v : α)
    (hs : ¬(m.find? (fun p => p.1 == k)).isSome) :
    (setA m k v).map (fun p => p.1) = m.map (fun p => p.1) ++ [k] := by
  unfold setA
  rw [if_neg hs]
  simp

/-! ### Claim C5 -/

/-- C5: for every coordinate and every (possibly fractional, possibly
negative) quantity, `setQty` followed by a lookup at the same
coordinate returns `max 0 ⌊v⌋`: the value is clamped to a non-negative
integer before being stored in the in-memory map.  (The asynchronous
Supabase upsert is external I/O; the map update itself is the
synchronous part modelled here.) -/
theorem c5_set_then_get (st : AppState) (k : ItemKey) (v : Rat) :
    lookupOr0 (setQty st k v).quantities (keyOf k) = max 0 ⌊v⌋ := by
  show lookupOr0 (setA st.quantities (keyOf k) (jsClamp v)) (keyOf k) = max 0 ⌊v⌋
  unfold lookupOr0
  rw [getA_setA_self]
  rfl

/-! ### Claim C9 -/

/-- C9: `setQty` (and its wrapper `adjust`) is frame-preserving: it
changes no snapshot entry other than the one at the encoded key, and it
leaves the warehouse list and the year list untouched. -/
theorem c9_frame (st : AppState) (k : ItemKey) (v : Rat) (d : Rat) (c : ItemKey)
    (h : keyOf c ≠ keyOf k) :
    lookupOr0 (setQty st k v).quantities (keyOf c) = lookupOr0 st.quantities (keyOf c) ∧
    (setQty st k v).warehouses = st.warehouses ∧
    (setQty st k v).years = st.years ∧
    lookupOr0 (adjust st k d).quantities (keyOf c) = lookupOr0 st.quantities (keyOf c) ∧
    (adjust st k d).warehouses = st.warehouses ∧
    (adjust st k d).years = st.years := by
  refine ⟨?_, rfl, rfl, ?_, rfl, rfl⟩
  · show lookupOr0 (setA st.quantities (keyOf k) (jsClamp v)) (keyOf c) = _
    unfold lookupOr0
    rw [getA_setA_ne _ _ _ _ h]
  · show lookupOr0 (setA st.quantities (keyOf k) _) (keyOf c) = _
    unfold lookupOr0
    rw [getA_setA_ne _ _ _ _ h]

theorem c9_frame_witness :
    lookupOr0 (setQty ⟨[⟨"roma", "Roma"⟩], [2024], [("2024_A_500ml_roma", 3)]⟩
        ⟨2024, "A", "500ml", "roma"⟩ 7 ).quantities (keyOf ⟨2024, "B", "500ml", "roma"⟩) =
      lookupOr0 [("2024_A_500ml_roma", 3)] (keyOf ⟨2024, "B", "500ml", "roma"⟩) ∧
    (setQty ⟨[⟨"roma", "Roma"⟩], [2024], [("2024_A_500ml_roma", 3)]⟩
        ⟨2024, "A", "500ml", "roma"⟩ 7).warehouses = [⟨"roma", "Roma"⟩] ∧
    (setQty ⟨[⟨"roma", "Roma"⟩], [2024], [("2024_A_500ml_roma", 3)]⟩
        ⟨2024, "A", "500ml", "roma"⟩ 7).years = [2024] ∧
    lookupOr0 (adjust ⟨[⟨"roma", "Roma"⟩], [2024], [("2024_A_500ml_roma", 3)]⟩
        ⟨2024, "A", "500ml", "roma"⟩ 1).quantities (keyOf ⟨2024, "B", "500ml", "roma"⟩) =
      lookupOr0 [("2024_A_500ml_roma", 3)] (keyOf ⟨2024, "B", "500ml", "roma"⟩) ∧
    (adjust ⟨[⟨"roma", "Roma"⟩], [2024], [("2024_A_500ml_roma", 3)]⟩
        ⟨2024, "A", "500ml", "roma"⟩ 1).warehouses = [⟨"roma", "Roma"⟩] ∧
    (adjust ⟨[⟨"roma", "Roma"⟩], [2024], [("2024_A_500ml_roma", 3)]⟩
        ⟨2024, "A", "500ml", "roma"⟩ 1).years = [2024] :=
  c9_frame ⟨[⟨"roma", "Roma"⟩], [2024], [("2024_A_500ml_roma", 3)]⟩
    ⟨2024, "A", "500ml", "roma"⟩ 7 1 ⟨2024, "B", "500ml", "roma"⟩ (by decide)

/-! ### Claim C2 -/

theorem length_insertDesc (x : Int) (l : List Int) : (insertDesc x l).length = l.length + 1 := by
  induction l with
  | nil => rfl
  | cons y ys ih => by_cases h : x ≥ y <;> simp [insertDesc, h, ih]

theorem length_sortDesc (l : List Int) : (sortDesc l).length = l.length := by
  induction l with
  | nil => rfl
  | cons x xs ih =>
    show (insertDesc x (sortDesc xs)).length = xs.length + 1
    rw [length_insertDesc, ih]

/-- C2 (amended): the number of Grid Rows before any filtering is
`|years| × 3 × 3` — one row per year, lot and format, with one totals
cell per warehouse inside each row; the row count does not carry the
`× |warehouses|` factor stated by the claim. -/
theorem c2_row_count (years : List Int) (warehouses : List Warehouse)
    (quantities : List (String × Int)) :
    (makeRows years warehouses quantities).length = years.length * 3 * 3 := by
  unfold makeRows
  have hinner : ∀ year : Int,
      (LOTS.flatMap (fun lot =>
        FORMATS.map (fun format =>
          ({ year := year, lot := lot, format := format,
             totals := warehouses.map (fun w =>
               (w.id, lookupOr0 quantities (keyOf ⟨year, lot, format, w.id⟩))) } : GridRow)))).length
        = 9 := by
    intro year
    simp [LOTS, FORMATS]
  have houter : ∀ l : List Int,
      (l.flatMap (fun year =>
        LOTS.flatMap (fun lot =>
          FORMATS.map (fun format =>
            ({ year := year, lot := lot, format := format,
               totals := warehouses.map (fun w =>
                 (w.id, lookupOr0 quantities (keyOf ⟨year, lot, format, w.id⟩))) } : GridRow))))).length
        = l.length * 9 := by
    intro l
    induction l with
    | nil => rfl
    | cons x xs ih =>
      simp only [List.flatMap_cons, List.length_append, ih, hinner, List.length_cons]
      ring
  rw [houter, length_sortDesc]
  ring

/-- C2 counterexample: with one year and two warehouses the grid has 9
rows, not `1 × 3 × 3 × 2 = 18`. -/
theorem c2_counterexample :
    (makeRows [2024] [⟨"roma", "Roma"⟩, ⟨"neci", "Neci"⟩] []).length = 9 ∧
    (makeRows [2024] [⟨"roma", "Roma"⟩, ⟨"neci", "Neci"⟩] []).length ≠ 1 * 3 * 3 * 2 := by
  constructor <;> decide

/-! ### Claim C10 -/

/-- C10: `parseKey` is a total function (it never throws; the model
returns an `Option`); on a string with more than four
underscore-separated segments whose first segment parses to a nonzero
number and whose next three segments are non-empty it returns the
coordinate built from the first four segments, silently discarding the
extras; and it returns `none` whenever any of the first four segments
of a string with at least four segments is empty. -/
theorem c10_parseKey_extra_segments :
    (∀ (s : String) (y : Int) (y0 l f w : String) (rest : List String),
        jsSplit '_' s = y0 :: l :: f :: w :: rest → rest ≠ [] →
        jsNumber y0 = some y → y ≠ 0 → l ≠ "" → f ≠ "" → w ≠ "" →
        parseKey s = some ⟨y, l, f, w⟩) ∧
    (∀ s : String, 4 ≤ (jsSplit '_' s).length → "" ∈ (jsSplit '_' s).take 4 →
        parseKey s = none) := by
  constructor
  · intro s y y0 l f w rest hsplit _hrest hy hy0 hl hf hw
    unfold parseKey
    rw [hsplit]
    simp [jsNumberU, hy, hy0, hl, hf, hw]
  · intro s hlen hmem
    match hp : jsSplit '_' s with
    | [] => rw [hp] at hlen; simp at hlen
    | [_] => rw [hp] at hlen; simp at hlen
    | [_, _] => rw [hp] at hlen; simp at hlen
    | [_, _, _] => rw [hp] at hlen; simp at hlen
    | a :: b :: c0 :: d :: rest =>
      rw [hp] at hmem
      unfold parseKey
      rw [hp]
      simp only [List.take_succ_cons, List.take_zero, List.mem_cons, List.not_mem_nil,
        or_false] at hmem
      rcases hmem with h | h | h | h
      · rw [← h]
        simp [jsNumberU, show jsNumber "" = some 0 from rfl]
      · rw [← h]
        cases hn : jsNumber a <;> simp [jsNumberU, hn]
      · rw [← h]
        cases hn : jsNumber a <;> simp [jsNumberU, hn]
      · rw [← h]
        cases hn : jsNumber a <;> simp [jsNumberU, hn]

theorem c10_witness :
    parseKey "2024_A_500ml_roma_extra" = some ⟨2024, "A", "500ml", "roma"⟩ ∧
    parseKey "2024__500ml_roma" = none :=
  ⟨c10_parseKey_extra_segments.1 "2024_A_500ml_roma_extra" 2024 "2024" "A" "500ml" "roma"
      ["extra"] (by decide) (by decide) (by decide) (by decide) (by decide) (by decide)
      (by decide),
    c10_parseKey_extra_segments.2 "2024__500ml_roma" (by decide) (by decide)⟩

/-! ### Claim C3 -/

theorem data_mk (l : List Char) : (String.mk l).data = l := rfl

theorem mk_data (s : String) : String.mk s.data = s := rfl

theorem intReprChars_no_special (y : Int) : ∀ ch ∈ intReprChars y,
    ch ≠ '_' ∧ ch ≠ ',' ∧ ch ≠ '"' ∧ ch ≠ '\n' ∧ ch ≠ '\r' := by
  intro ch hch
  rcases intReprChars_mem y ch hch with h | h
  · subst h
    refine ⟨by decide, by decide, by decide, by decide, by decide⟩
  · exact ⟨isDigit_ne_char ch h '_' (by decide), isDigit_ne_char ch h ',' (by decide),
      isDigit_ne_char ch h '"' (by decide), isDigit_ne_char ch h '\n' (by decide),
      isDigit_ne_char ch h '\r' (by decide)⟩

theorem LOTS_facts : ∀ l ∈ LOTS, l ≠ "" ∧ ∀ ch ∈ l.data,
    ch ≠ '_' ∧ ch ≠ ',' ∧ ch ≠ '"' ∧ ch ≠ '\n' ∧ ch ≠ '\r' := by decide

theorem FORMATS_facts : ∀ f ∈ FORMATS, f ≠ "" ∧ ∀ ch ∈ f.data,
    ch ≠ '_' ∧ ch ≠ ',' ∧ ch ≠ '"' ∧ ch ≠ '\n' ∧ ch ≠ '\r' := by decide

theorem slugChar_ne (ch : Char) (h : isSlugChar ch = true) :
    ch ≠ '_' ∧ ch ≠ ',' ∧ ch ≠ '"' ∧ ch ≠ '\n' ∧ ch ≠ '\r' := by
  refine ⟨?_, ?_, ?_, ?_, ?_⟩ <;> intro he <;> subst he <;> exact absurd h (by decide)

theorem wellFormed_spec (c : ItemKey) (h : wellFormed c = true) :
    1 ≤ c.year ∧ c.lot ∈ LOTS ∧ c.format ∈ FORMATS ∧ c.warehouseId ≠ "" ∧
      ∀ ch ∈ c.warehouseId.data, isSlugChar ch = true := by
  unfold wellFormed at h
  simp only [Bool.and_eq_true, decide_eq_true_eq, bne_iff_ne, ne_eq, List.all_eq_true] at h
  obtain ⟨⟨⟨⟨h1, h2⟩, h3⟩, h4⟩, h5⟩ := h
  refine ⟨h1, ?_, ?_, h4, h5⟩
  · simpa using h2
  · simpa using h3

theorem keyOf_data (c : ItemKey) :
    (keyOf c).data =
      intReprChars c.year ++ '_' :: (c.lot.data ++ '_' :: (c.format.data ++ '_' ::
        c.warehouseId.data)) := by
  show (intRepr c.year ++ "_" ++ c.lot ++ "_" ++ c.format ++ "_" ++ c.warehouseId).data = _
  simp only [String.data_append]
  simp [intRepr, data_mk, List.append_assoc]

theorem jsSplit_keyOf (c : ItemKey)
    (hlot : ∀ ch ∈ c.lot.data, ch ≠ '_') (hfmt : ∀ ch ∈ c.format.data, ch ≠ '_')
    (hwid : ∀ ch ∈ c.warehouseId.data, ch ≠ '_') :
    jsSplit '_' (keyOf c) = [intRepr c.year, c.lot, c.format, c.warehouseId] := by
  unfold jsSplit
  rw [keyOf_data]
  rw [splitOnCharFn_append '_' _ _ (fun ch hch => (intReprChars_no_special c.year ch hch).1)]
  rw [splitOnCharFn_append '_' _ _ hlot]
  rw [splitOnCharFn_append '_' _ _ hfmt]
  rw [splitOnCharFn_no_sep '_' _ hwid]
  simp [intRepr, mk_data]

/-- C3: for every well-formed coordinate (positive integer year, lot in
A/B/C, format in 500ml/250ml/5L, non-empty slug warehouse id), decoding
the encoded key returns exactly the coordinate:
`parseKey (keyOf c) = some c`. -/
theorem c3_codec_roundtrip (c : ItemKey) (h : wellFormed c = true) :
    parseKey (keyOf c) = some c := by
  obtain ⟨hy, hlot, hfmt, hwid, hslug⟩ := wellFormed_spec c h
  obtain ⟨hlotne, hlotch⟩ := LOTS_facts c.lot hlot
  obtain ⟨hfmtne, hfmtch⟩ := FORMATS_facts c.format hfmt
  have hwidch : ∀ ch ∈ c.warehouseId.data, ch ≠ '_' :=
    fun ch hch => (slugChar_ne ch (hslug ch hch)).1
  unfold parseKey
  rw [jsSplit_keyOf c (fun ch hch => (hlotch ch hch).1) (fun ch hch => (hfmtch ch hch).1) hwidch]
  have hy0 : (c.year == 0) = false := beq_eq_false_iff_ne.mpr (by omega)
  have h2 : (c.lot == "") = false := beq_eq_false_iff_ne.mpr hlotne
  have h3 : (c.format == "") = false := beq_eq_false_iff_ne.mpr hfmtne
  have h4 : (c.warehouseId == "") = false := beq_eq_false_iff_ne.mpr hwid
  simp [jsNumberU, jsNumber_intRepr, hy0, h2, h3, h4]

theorem c3_witness :
    wellFormed ⟨2024, "A", "500ml", "roma"⟩ = true ∧
    parseKey (keyOf ⟨2024, "A", "500ml", "roma"⟩) = some ⟨2024, "A", "500ml", "roma"⟩ :=
  ⟨by decide, c3_codec_roundtrip ⟨2024, "A", "500ml", "roma"⟩ (by decide)⟩

/-! ### Claim C8 -/

theorem mem_insertDesc (a x : Int) (l : List Int) :
    a ∈ insertDesc x l ↔ a = x ∨ a ∈ l := by
  induction l with
  | nil => simp [insertDesc]
  | cons y ys ih =>
    by_cases h : x ≥ y
    · simp [insertDesc, h]
    · simp [insertDesc, h, ih]
      tauto

theorem mem_sortDesc (a : Int) (l : List Int) : a ∈ sortDesc l ↔ a ∈ l := by
  induction l with
  | nil => simp [sortDesc]
  | cons x xs ih =>
    show a ∈ insertDesc x (sortDesc xs) ↔ _
    rw [mem_insertDesc, ih]
    simp


theorem mem_addYearToSet (a y : Int) (l : List Int) :
    a ∈ addYearToSet l y ↔ a ∈ l ∨ a = y := by
  unfold addYearToSet
  cases h : l.contains y with
  | true =>
    have hy : y ∈ l := by simpa using h
    rw [if_pos rfl]
    constructor
    · exact fun ha => Or.inl ha
    · rintro (ha | ha)
      · exact ha
      · subst ha
        exact hy
  | false =>
    rw [if_neg (by simp)]
    simp

theorem mem_foldl_addYearToSet (l : List Int) : ∀ (acc : List Int) (a : Int),
    a ∈ l.foldl addYearToSet acc ↔ a ∈ acc ∨ a ∈ l := by
  induction l with
  | nil => simp
  | cons y ys ih =>
    intro acc a
    show a ∈ ys.foldl addYearToSet (addYearToSet acc y) ↔ _
    rw [ih, mem_addYearToSet]
    simp
    tauto

theorem mem_dedupKeepFirst (a : Int) (l : List Int) : a ∈ dedupKeepFirst l ↔ a ∈ l := by
  unfold dedupKeepFirst
  rw [mem_foldl_addYearToSet]
  simp

theorem importRowStep_years_mono (iY iL iF iW iQ : Nat) (rows : List String) :
    ∀ (acc : List (String × Int) × List Int × List (ItemKey × Int)) (y : Int),
      y ∈ acc.2.1 → y ∈ (rows.foldl (importRowStep iY iL iF iW iQ) acc).2.1 := by
  induction rows with
  | nil => intro acc y h; exact h
  | cons r rs ih =>
    intro acc y h
    show y ∈ (rs.foldl (importRowStep iY iL iF iW iQ) (importRowStep iY iL iF iW iQ acc r)).2.1
    apply ih
    unfold importRowStep
    dsimp only
    split
    · split
      · exact h
      · show y ∈ addYearToSet acc.2.1 _
        rw [mem_addYearToSet]
        exact Or.inl h
    · exact h

/-- C8 (amended): the observed year set is populated from the data seen
on load, and extended by explicit user action: `addYear` and CSV import
never remove a year.  The load (hydrate) effect, however, does not
merely extend the set: when the fetch returns at least one row it
replaces the year set with exactly the distinct years of the fetched
rows (keeping the previous set only when the fetch is empty), so a year
present only in the previous in-memory set is dropped. -/
theorem c8_year_lifecycle :
    (∀ (prev : List Int) (input : Option String), ∀ y ∈ prev, y ∈ addYear prev input) ∧
    (∀ (q : List (String × Int)) (ys : List Int) (text : String)
        (res : List (String × Int) × List Int × List (ItemKey × Int)),
        importCSVPure q ys text = some res → ∀ y ∈ ys, y ∈ res.2.1) ∧
    (∀ (prev : List Int) (rows : List (ItemKey × Int)),
        (rows = [] → hydrateYears prev rows = prev) ∧
        (rows ≠ [] → ∀ y : Int,
          (y ∈ hydrateYears prev rows ↔ y ∈ rows.map (fun r => r.1.year)))) := by
  refine ⟨?_, ?_, ?_⟩
  · intro prev input y hy
    unfold addYear
    cases input with
    | none => exact hy
    | some s =>
      have hgen : ∀ n : Int, y ∈ sortDesc (dedupKeepFirst (prev ++ [n])) := by
        intro n
        rw [mem_sortDesc, mem_dedupKeepFirst]
        simp [hy]
      repeat' split
      all_goals first
        | exact hy
        | exact hgen _
  · intro q ys text res hres y hy
    unfold importCSVPure at hres
    cases hl : csvLines text with
    | nil => rw [hl] at hres; cases hres
    | cons header rows =>
      rw [hl] at hres
      simp only at hres
      cases hY : ((jsSplit ',' header).map (fun s => String.mk (trimChars s.data))).findIdx?
          (fun c => c == "year") with
      | none => rw [hY] at hres; cases hres
      | some iY =>
        cases hL : ((jsSplit ',' header).map (fun s => String.mk (trimChars s.data))).findIdx?
            (fun c => c == "lot") with
        | none => rw [hY, hL] at hres; cases hres
        | some iL =>
          cases hF : ((jsSplit ',' header).map (fun s => String.mk (trimChars s.data))).findIdx?
              (fun c => c == "format") with
          | none => rw [hY, hL, hF] at hres; cases hres
          | some iF =>
            cases hW : ((jsSplit ',' header).map (fun s => String.mk (trimChars s.data))).findIdx?
                (fun c => c == "warehouse") with
            | none => rw [hY, hL, hF, hW] at hres; cases hres
            | some iW =>
              cases hQ : ((jsSplit ',' header).map (fun s => String.mk (trimChars s.data))).findIdx?
                  (fun c => c == "qty") with
              | none => rw [hY, hL, hF, hW, hQ] at hres; cases hres
              | some iQ =>
                rw [hY, hL, hF, hW, hQ] at hres
                simp only [Option.some.injEq] at hres
                subst hres
                show y ∈ sortDesc (rows.foldl (importRowStep iY iL iF iW iQ)
                  (q, dedupKeepFirst ys, [])).2.1
                rw [mem_sortDesc]
                apply importRowStep_years_mono
                show y ∈ dedupKeepFirst ys
                rw [mem_dedupKeepFirst]
                exact hy
  · intro prev rows
    constructor
    · intro h
      subst h
      rfl
    · intro hne y
      have hmapne : rows.map (fun r => r.1.year) ≠ [] := by
        cases rows with
        | nil => exact absurd rfl hne
        | cons r rs => simp
      have hdedne : dedupKeepFirst (rows.map (fun r => r.1.year)) ≠ [] := by
        intro hcontra
        cases hm : rows.map (fun r => r.1.year) with
        | nil => exact hmapne hm
        | cons a t =>
          have hmem : a ∈ dedupKeepFirst (rows.map (fun r => r.1.year)) := by
            rw [mem_dedupKeepFirst, hm]
            simp
          rw [hcontra] at hmem
          cases hmem
      have hlen : 0 < (dedupKeepFirst (rows.map (fun r => r.1.year))).length :=
        List.length_pos.mpr hdedne
      show y ∈ (if (dedupKeepFirst (rows.map (fun r => r.1.year))).length > 0
          then sortDesc (dedupKeepFirst (rows.map (fun r => r.1.year))) else prev) ↔ _
      rw [if_pos hlen]
      rw [mem_sortDesc, mem_dedupKeepFirst]

/-- C8 counterexample: a year present in the in-memory set but absent
from the fetched data is removed by the load effect, contradicting
"never automatically pruned: no operation, including hydrate, removes a
year that is already in the set". -/
theorem c8_counterexample :
    (2030 : Int) ∈ [(2030 : Int)] ∧
    hydrateYears [2030] [(⟨2024, "A", "500ml", "roma"⟩, 1)] = [2024] ∧
    (2030 : Int) ∉ hydrateYears [2030] [(⟨2024, "A", "500ml", "roma"⟩, 1)] := by
  refine ⟨by decide, by decide, by decide⟩

theorem c8_witness :
    (2024 : Int) ∈ addYear [2024] (some "2030") ∧
    (2024 : Int) ∈ (([] : List (String × Int)), [(2025 : Int), 2024],
      ([] : List (ItemKey × Int))).2.1 ∧
    hydrateYears [2030] [] = [2030] ∧
    (2024 : Int) ∈ hydrateYears [2030] [(⟨2024, "A", "500ml", "roma"⟩, 1)] :=
  ⟨c8_year_lifecycle.1 [2024] (some "2030") 2024 (by decide),
    c8_year_lifecycle.2.1 [] [2024, 2025] "year,lot,format,warehouse,qty"
      ([], [2025, 2024], []) (by decide) 2024 (by decide),
    (c8_year_lifecycle.2.2 [2030] []).1 rfl,
    ((c8_year_lifecycle.2.2 [2030] [(⟨2024, "A", "500ml", "roma"⟩, 1)]).2 (by decide)
      2024).mpr (by decide)⟩

/-! ### Claim C6 -/

theorem grandTotalsStep_skip (fy : Option Int) (m : List (String × Option Int))
    (p : String × Int) (hk : parseKey p.1 = none) : grandTotalsStep fy m p = m := by
  unfold grandTotalsStep
  rw [hk]

theorem grandTotalsStep_nomatch (fy : Option Int) (m : List (String × Option Int))
    (p : String × Int) (c : ItemKey) (hk : parseKey p.1 = some c)
    (hf : matchesYearFilter fy c.year = false) : grandTotalsStep fy m p = m := by
  unfold grandTotalsStep
  rw [hk]
  dsimp only
  rw [if_neg (by rw [hf]; simp)]

theorem grandTotalsStep_match_known (fy : Option Int) (m : List (String × Option Int))
    (p : String × Int) (c : ItemKey) (a : Int) (hk : parseKey p.1 = some c)
    (hf : matchesYearFilter fy c.year = true) (hg : getA m c.warehouseId = some (some a)) :
    grandTotalsStep fy m p = setA m c.warehouseId (some (a + p.2)) := by
  unfold grandTotalsStep
  rw [hk]
  dsimp only
  rw [if_pos (by rw [hf]), hg]

theorem grandTotalsStep_match_nan (fy : Option Int) (m : List (String × Option Int))
    (p : String × Int) (c : ItemKey) (hk : parseKey p.1 = some c)
    (hf : matchesYearFilter fy c.year = true) (hg : getA m c.warehouseId = some none) :
    grandTotalsStep fy m p = setA m c.warehouseId none := by
  unfold grandTotalsStep
  rw [hk]
  dsimp only
  rw [if_pos (by rw [hf]), hg]

theorem grandTotalsStep_match_absent (fy : Option Int) (m : List (String × Option Int))
    (p : String × Int) (c : ItemKey) (hk : parseKey p.1 = some c)
    (hf : matchesYearFilter fy c.year = true) (hg : getA m c.warehouseId = none) :
    grandTotalsStep fy m p = setA m c.warehouseId none := by
  unfold grandTotalsStep
  rw [hk]
  dsimp only
  rw [if_pos (by rw [hf]), hg]

theorem grandTotalsStep_other (fy : Option Int) (m : List (String × Option Int))
    (p : String × Int) (wid : String)
    (h : ∀ c : ItemKey, parseKey p.1 = some c → c.warehouseId ≠ wid) :
    getA (grandTotalsStep fy m p) wid = getA m wid := by
  unfold grandTotalsStep
  cases hk : parseKey p.1 with
  | none => rfl
  | some c =>
    have hne : wid ≠ c.warehouseId := fun he => (h c hk) he.symm
    dsimp only
    cases hf : matchesYearFilter fy c.year with
    | false => rw [if_neg (by simp)]
    | true =>
      rw [if_pos rfl]
      cases hg : getA m c.warehouseId with
      | none => exact getA_setA_ne m c.warehouseId wid none hne
      | some o =>
        cases o with
        | none => exact getA_setA_ne m c.warehouseId wid none hne
        | some a => exact getA_setA_ne m c.warehouseId wid (some (a + p.2)) hne

theorem matchSum_cons (p : String × Int) (q : List (String × Int)) (fy : Option Int)
    (wid : String) :
    matchSum (p :: q) fy wid =
      (match parseKey p.1 with
        | some c => if matchesYearFilter fy c.year && c.warehouseId == wid then p.2 else 0
        | none => 0) + matchSum q fy wid := by
  unfold matchSum
  rw [List.filterMap_cons]
  cases hk : parseKey p.1 with
  | none => simp [hk]
  | some c =>
    cases hcond : (matchesYearFilter fy c.year && c.warehouseId == wid) <;> simp [hk, hcond]

theorem hasMatch_cons (p : String × Int) (q : List (String × Int)) (fy : Option Int)
    (wid : String) :
    hasMatch (p :: q) fy wid =
      ((match parseKey p.1 with
        | some c => matchesYearFilter fy c.year && c.warehouseId == wid
        | none => false) || hasMatch q fy wid) := by
  unfold hasMatch
  rw [List.any_cons]

theorem grandTotals_known_slot (fy : Option Int) (q : List (String × Int)) :
    ∀ (m : List (String × Option Int)) (wid : String) (a : Int),
      getA m wid = some (some a) →
      getA (q.foldl (grandTotalsStep fy) m) wid = some (some (a + matchSum q fy wid)) := by
  induction q with
  | nil =>
    intro m wid a h
    simp [matchSum, h]
  | cons p q' ih =>
    intro m wid a h
    show getA (q'.foldl (grandTotalsStep fy) (grandTotalsStep fy m p)) wid = _
    rw [matchSum_cons]
    cases hk : parseKey p.1 with
    | none =>
      rw [grandTotalsStep_skip fy m p hk]
      rw [ih m wid a h]
      simp
    | some c =>
      cases hf : matchesYearFilter fy c.year with
      | false =>
        rw [grandTotalsStep_nomatch fy m p c hk hf]
        rw [ih m wid a h]
        simp [hf]
      | true =>
        cases hw : (c.warehouseId == wid) with
        | true =>
          have hwid : c.warehouseId = wid := beq_iff_eq.mp hw
          have hg : getA m c.warehouseId = some (some a) := by rw [hwid]; exact h
          rw [grandTotalsStep_match_known fy m p c a hk hf hg]
          have hset : getA (setA m c.warehouseId (some (a + p.2))) wid = some (some (a + p.2)) := by
            rw [hwid]
            exact getA_setA_self m wid (some (a + p.2))
          rw [ih _ wid (a + p.2) hset]
          simp [hf, hw]
          ring
        | false =>
          have hother : getA (grandTotalsStep fy m p) wid = getA m wid := by
            apply grandTotalsStep_other
            intro c' hc'
            rw [hk] at hc'
            cases hc'
            exact beq_eq_false_iff_ne.mp hw
          have hnext : getA (grandTotalsStep fy m p) wid = some (some a) := by rw [hother, h]
          rw [ih _ wid a hnext]
          simp [hf, hw]

theorem grandTotals_nan_slot (fy : Option Int) (q : List (String × Int)) :
    ∀ (m : List (String × Option Int)) (wid : String),
      getA m wid = some none →
      getA (q.foldl (grandTotalsStep fy) m) wid = some none := by
  induction q with
  | nil => intro m wid h; exact h
  | cons p q' ih =>
    intro m wid h
    show getA (q'.foldl (grandTotalsStep fy) (grandTotalsStep fy m p)) wid = _
    cases hk : parseKey p.1 with
    | none =>
      rw [grandTotalsStep_skip fy m p hk]
      exact ih m wid h
    | some c =>
      cases hf : matchesYearFilter fy c.year with
      | false =>
        rw [grandTotalsStep_nomatch fy m p c hk hf]
        exact ih m wid h
      | true =>
        cases hw : (c.warehouseId == wid) with
        | true =>
          have hwid : c.warehouseId = wid := beq_iff_eq.mp hw
          have hg : getA m c.warehouseId = some none := by rw [hwid]; exact h
          rw [grandTotalsStep_match_nan fy m p c hk hf hg]
          apply ih
          rw [hwid]
          exact getA_setA_self m wid none
        | false =>
          apply ih
          rw [grandTotalsStep_other fy m p wid]
          · exact h
          · intro c' hc'
            rw [hk] at hc'
            cases hc'
            exact beq_eq_false_iff_ne.mp hw

theorem grandTotals_absent_slot (fy : Option Int) (q : List (String × Int)) :
    ∀ (m : List (String × Option Int)) (wid : String),
      getA m wid = none →
      getA (q.foldl (grandTotalsStep fy) m) wid =
        if hasMatch q fy wid then some none else none := by
  induction q with
  | nil =>
    intro m wid h
    simp [hasMatch, h]
  | cons p q' ih =>
    intro m wid h
    show getA (q'.foldl (grandTotalsStep fy) (grandTotalsStep fy m p)) wid = _
    rw [hasMatch_cons]
    cases hk : parseKey p.1 with
    | none =>
      rw [grandTotalsStep_skip fy m p hk]
      rw [ih m wid h]
      simp
    | some c =>
      cases hf : matchesYearFilter fy c.year with
      | false =>
        rw [grandTotalsStep_nomatch fy m p c hk hf]
        rw [ih m wid h]
        simp [hf]
      | true =>
        cases hw : (c.warehouseId == wid) with
        | true =>
          have hwid : c.warehouseId = wid := beq_iff_eq.mp hw
          have hg : getA m c.warehouseId = none := by rw [hwid]; exact h
          rw [grandTotalsStep_match_absent fy m p c hk hf hg]
          have hnan : getA (setA m c.warehouseId none) wid = some none := by
            rw [hwid]
            exact getA_setA_self m wid none
          rw [grandTotals_nan_slot fy q' _ wid hnan]
          simp [hf, hw]
        | false =>
          have hother : getA (grandTotalsStep fy m p) wid = getA m wid := by
            apply grandTotalsStep_other
            intro c' hc'
            rw [hk] at hc'
            cases hc'
            exact beq_eq_false_iff_ne.mp hw
          have hnext : getA (grandTotalsStep fy m p) wid = none := by rw [hother, h]
          rw [ih _ wid hnext]
          simp [hf, hw]

theorem getA_init (warehouses : List Warehouse) (wid : String) :
    getA (warehouses.map (fun w => (w.id, (some 0 : Option Int)))) wid =
      if wid ∈ warehouses.map (fun w => w.id) then some (some 0) else none := by
  induction warehouses with
  | nil => simp [getA]
  | cons w ws ih =>
    unfold getA
    rw [List.map_cons, find?_cons_eq]
    cases hw : ((w.id, (some 0 : Option Int)).1 == wid) with
    | true =>
      have : w.id = wid := beq_iff_eq.mp hw
      rw [if_pos rfl]
      simp [this]
    | false =>
      have hne : w.id ≠ wid := beq_eq_false_iff_ne.mp hw
      rw [if_neg (by simp)]
      unfold getA at ih
      rw [ih]
      by_cases hmem : wid ∈ List.map (fun w => w.id) ws
      · rw [if_pos hmem]
        rw [if_pos (by rw [List.map_cons]; exact List.mem_cons_of_mem _ hmem)]
      · rw [if_neg hmem]
        rw [if_neg (by
          rw [List.map_cons]
          intro hc
          rcases List.mem_cons.mp hc with h1 | h1
          · exact hne h1.symm
          · exact hmem h1)]

/-- C6 (amended): `perWarehouseTotal` (the `grandTotals` memo) sums,
grouped by warehouse id, the quantities of all snapshot entries whose
decoded year passes the filter; undecodable keys are skipped without
error and contribute nothing.  However a decodable matching key whose
warehouse id is NOT in the warehouse list is not skipped: it creates an
entry for that unknown id whose value is NaN (`undefined + qty`), so
not every returned value is an integer.  For every known warehouse id
the returned value is the integer sum of its matching entries. -/
theorem c6_per_warehouse_totals (warehouses : List Warehouse)
    (quantities : List (String × Int)) (fy : Option Int) :
    (∀ wid, wid ∈ warehouses.map (fun w => w.id) →
      getA (grandTotals warehouses quantities fy) wid =
        some (some (matchSum quantities fy wid))) ∧
    (∀ wid, wid ∉ warehouses.map (fun w => w.id) →
      getA (grandTotals warehouses quantities fy) wid =
        if hasMatch quantities fy wid then some none else none) := by
  constructor
  · intro wid hmem
    unfold grandTotals
    have hinit : getA (warehouses.map fun w => (w.id, (some 0 : Option Int))) wid =
        some (some 0) := by
      rw [getA_init]
      simp [hmem]
    rw [grandTotals_known_slot fy quantities _ wid 0 hinit]
    simp
  · intro wid hmem
    unfold grandTotals
    have hinit : getA (warehouses.map fun w => (w.id, (some 0 : Option Int))) wid = none := by
      rw [getA_init]
      simp [hmem]
    exact grandTotals_absent_slot fy quantities _ wid hinit

/-- C6 counterexample: a decodable key whose warehouse id is not in the
warehouse list is not skipped — it adds a NaN entry to the returned
mapping, so it does contribute, and not every value is an integer. -/
theorem c6_counterexample :
    grandTotals [⟨"roma", "Roma"⟩] [("2024_A_500ml_ghost", 4)] none =
      [("roma", some 0), ("ghost", none)] ∧
    ("ghost", (none : Option Int)) ∈
      grandTotals [⟨"roma", "Roma"⟩] [("2024_A_500ml_ghost", 4)] none := by
  refine ⟨by decide, by decide⟩

theorem c6_witness :
    getA (grandTotals [⟨"roma", "Roma"⟩]
        [("2024_A_500ml_ghost", 4), ("2024_A_500ml_roma", 2)] none) "roma" =
      some (some (matchSum [("2024_A_500ml_ghost", 4), ("2024_A_500ml_roma", 2)] none "roma")) ∧
    getA (grandTotals [⟨"roma", "Roma"⟩]
        [("2024_A_500ml_ghost", 4), ("2024_A_500ml_roma", 2)] none) "ghost" =
      (if hasMatch [("2024_A_500ml_ghost", 4), ("2024_A_500ml_roma", 2)] none "ghost"
        then some none else none) :=
  ⟨(c6_per_warehouse_totals [⟨"roma", "Roma"⟩]
      [("2024_A_500ml_ghost", 4), ("2024_A_500ml_roma", 2)] none).1 "roma" (by decide),
    (c6_per_warehouse_totals [⟨"roma", "Roma"⟩]
      [("2024_A_500ml_ghost", 4), ("2024_A_500ml_roma", 2)] none).2 "ghost" (by decide)⟩

/-! ### Claim C1: generic sum lemmas -/

theorem sum_map_flatMap {α β : Type} (l : List α) (f : α → List β) (g : β → Int) :
    ((l.flatMap f).map g).sum = (l.map (fun a => ((f a).map g).sum)).sum := by
  induction l with
  | nil => rfl
  | cons a t ih => simp [List.flatMap_cons, ih]

theorem sum_map_add {α : Type} (l : List α) (f g : α → Int) :
    (l.map (fun a => f a + g a)).sum = (l.map f).sum + (l.map g).sum := by
  induction l with
  | nil => rfl
  | cons a t ih =>
    simp only [List.map_cons, List.sum_cons, ih]
    ring

theorem sum_map_zero {α : Type} (l : List α) : (l.map (fun _ => (0 : Int))).sum = 0 := by
  induction l with
  | nil => rfl
  | cons a t ih => simp [ih]

theorem sum_map_congr {α : Type} (l : List α) (f g : α → Int) (h : ∀ a ∈ l, f a = g a) :
    (l.map f).sum = (l.map g).sum := by
  rw [List.map_congr_left h]

theorem sum_map_ite_unique {α : Type} [DecidableEq α] (l : List α) (x : α) (v : Int)
    (hnodup : l.Nodup) (hmem : x ∈ l) :
    (l.map (fun a => if a = x then v else 0)).sum = v := by
  induction l with
  | nil => cases hmem
  | cons a t ih =>
    rcases List.mem_cons.mp hmem with h | h
    · have hnx : x ∉ t := by rw [h]; exact (List.nodup_cons.mp hnodup).1
      simp only [List.map_cons, List.sum_cons, if_pos h.symm]
      have hz : (t.map (fun b => if b = x then v else 0)).sum = 0 := by
        rw [sum_map_congr t _ (fun _ => 0) (fun b hb => by
          rw [if_neg (fun (he : b = x) => hnx (he ▸ hb))])]
        exact sum_map_zero t
      rw [hz]
      ring
    · have hna : a ≠ x := by
        intro he
        subst he
        exact (List.nodup_cons.mp hnodup).1 h
      simp only [List.map_cons, List.sum_cons, if_neg hna]
      rw [ih (List.nodup_cons.mp hnodup).2 h]
      ring

theorem foldl_add_eq_sum {α : Type} (l : List α) (h : α → Int) : ∀ s : Int,
    l.foldl (fun acc w => acc + h w) s = s + (l.map h).sum := by
  induction l with
  | nil => intro s; simp
  | cons a t ih =>
    intro s
    show t.foldl (fun acc w => acc + h w) (s + h a) = _
    rw [ih (s + h a)]
    simp
    ring

theorem lookupOr0_not_mem (m : List (String × Int)) (k : String)
    (h : k ∉ m.map (fun p => p.1)) : lookupOr0 m k = 0 := by
  unfold lookupOr0 getA
  have hfind : m.find? (fun p => p.1 == k) = none := by
    rw [List.find?_eq_none]
    intro p hp hbeq
    exact h (List.mem_map.mpr ⟨p, hp, beq_iff_eq.mp hbeq⟩)
  rw [hfind]
  rfl

theorem lookupOr0_cons_split (p : String × Int) (q : List (String × Int)) (key : String)
    (hfresh : p.1 ∉ q.map (fun e => e.1)) :
    lookupOr0 (p :: q) key = lookupOr0 q key + (if p.1 == key then p.2 else 0) := by
  unfold lookupOr0 getA
  rw [find?_cons_eq]
  cases hb : (p.1 == key) with
  | true =>
    have hk : p.1 = key := beq_iff_eq.mp hb
    rw [if_pos rfl]
    have h0 : lookupOr0 q key = 0 := lookupOr0_not_mem q key (hk ▸ hfresh)
    unfold lookupOr0 getA at h0
    rw [h0]
    simp
  | false =>
    rw [if_neg (by simp)]
    simp

theorem lookupOr0_graph (warehouses : List Warehouse) (g : String → Int) (wid : String)
    (hmem : wid ∈ warehouses.map (fun w => w.id)) :
    lookupOr0 (warehouses.map (fun w => (w.id, g w.id))) wid = g wid := by
  induction warehouses with
  | nil => cases hmem
  | cons w ws ih =>
    unfold lookupOr0 getA
    rw [List.map_cons, find?_cons_eq]
    cases hb : ((w.id, g w.id).1 == wid) with
    | true =>
      rw [if_pos rfl]
      have : w.id = wid := beq_iff_eq.mp hb
      simp [this]
    | false =>
      rw [if_neg (by simp)]
      have hne : w.id ≠ wid := beq_eq_false_iff_ne.mp hb
      have hmem2 : wid ∈ ws.map (fun w => w.id) := by
        rw [List.map_cons] at hmem
        rcases List.mem_cons.mp hmem with h | h
        · exact absurd h.symm hne
        · exact h
      unfold lookupOr0 getA at ih
      exact ih hmem2

theorem matchTotal_cons (p : String × Int) (q : List (String × Int)) (fy : Option Int) :
    matchTotal (p :: q) fy =
      (match parseKey p.1 with
        | some c => if matchesYearFilter fy c.year then p.2 else 0
        | none => 0) + matchTotal q fy := by
  unfold matchTotal
  rw [List.filterMap_cons]
  cases hk : parseKey p.1 with
  | none => simp [hk]
  | some c =>
    cases hcond : matchesYearFilter fy c.year <;> simp [hk, hcond]

theorem perm_insertDesc (x : Int) (l : List Int) : (insertDesc x l).Perm (x :: l) := by
  induction l with
  | nil => simp [insertDesc]
  | cons y ys ih =>
    by_cases h : x ≥ y
    · simp [insertDesc, h]
    · have hstep : insertDesc x (y :: ys) = y :: insertDesc x ys := by
        simp [insertDesc, h]
      rw [hstep]
      exact List.Perm.trans (List.Perm.cons y ih) (List.Perm.swap x y ys)

theorem perm_sortDesc (l : List Int) : (sortDesc l).Perm l := by
  induction l with
  | nil => rfl
  | cons x xs ih =>
    show (insertDesc x (sortDesc xs)).Perm (x :: xs)
    exact List.Perm.trans (perm_insertDesc x (sortDesc xs)) (List.Perm.cons x ih)

theorem nodup_sortDesc (l : List Int) (h : l.Nodup) : (sortDesc l).Nodup :=
  (perm_sortDesc l).nodup_iff.mpr h

/-! ### Claim C1: key injectivity on enumerated coordinates -/

theorem splitOnCharFn_singleton (sep : Char) (l : List Char) :
    ∀ x, splitOnCharFn sep l = [x] → l = x := by
  induction l with
  | nil =>
    intro x h
    exact ((List.cons.injEq _ _ _ _).mp h).1
  | cons c cs ih =>
    intro x h
    unfold splitOnCharFn at h
    cases hc : (c == sep) with
    | true =>
      rw [hc] at h
      simp only [if_pos rfl] at h
      have h2 := (List.cons.injEq _ _ _ _).mp h
      exact absurd h2.2 (splitOnCharFn_ne_nil sep cs)
    | false =>
      rw [hc] at h
      simp only [Bool.false_eq_true, if_false] at h
      cases hs : splitOnCharFn sep cs with
      | nil => exact absurd hs (splitOnCharFn_ne_nil sep cs)
      | cons hd tl =>
        rw [hs] at h
        have h2 := (List.cons.injEq _ _ _ _).mp h
        have hx : x = c :: hd := h2.1.symm
        have htl : tl = [] := h2.2
        have hcs : cs = hd := ih hd (by rw [hs, htl])
        rw [hx, hcs]

theorem keyOf_inj_enum (y : Int) (l f wid : String) (c : ItemKey)
    (hl : ∀ ch ∈ l.data, ch ≠ '_') (hf : ∀ ch ∈ f.data, ch ≠ '_')
    (hc : wellFormed c = true)
    (heq : keyOf ⟨y, l, f, wid⟩ = keyOf c) :
    y = c.year ∧ l = c.lot ∧ f = c.format ∧ wid = c.warehouseId := by
  obtain ⟨_hcy, hclot, hcfmt, _hcwid, hcslug⟩ := wellFormed_spec c hc
  have hcl := (LOTS_facts c.lot hclot).2
  have hcf := (FORMATS_facts c.format hcfmt).2
  have hcw : ∀ ch ∈ c.warehouseId.data, ch ≠ '_' :=
    fun ch hch => (slugChar_ne ch (hcslug ch hch)).1
  have hd : (keyOf ⟨y, l, f, wid⟩).data = (keyOf c).data := by rw [heq]
  rw [keyOf_data, keyOf_data] at hd
  dsimp only at hd
  have hsplit := congrArg (splitOnCharFn '_') hd
  rw [splitOnCharFn_append '_' _ _ (fun ch hch => (intReprChars_no_special y ch hch).1)]
    at hsplit
  rw [splitOnCharFn_append '_' _ _ hl] at hsplit
  rw [splitOnCharFn_append '_' _ _ hf] at hsplit
  rw [splitOnCharFn_append '_' _ _
    (fun ch hch => (intReprChars_no_special c.year ch hch).1)] at hsplit
  rw [splitOnCharFn_append '_' _ _ (fun ch hch => (hcl ch hch).1)] at hsplit
  rw [splitOnCharFn_append '_' _ _ (fun ch hch => (hcf ch hch).1)] at hsplit
  rw [splitOnCharFn_no_sep '_' _ hcw] at hsplit
  have e1 := ((List.cons.injEq _ _ _ _).mp hsplit).1
  have hrest := ((List.cons.injEq _ _ _ _).mp hsplit).2
  have e2 := ((List.cons.injEq _ _ _ _).mp hrest).1
  have hrest2 := ((List.cons.injEq _ _ _ _).mp hrest).2
  have e3 := ((List.cons.injEq _ _ _ _).mp hrest2).1
  have e4 := ((List.cons.injEq _ _ _ _).mp hrest2).2
  refine ⟨?_, ?_, ?_, ?_⟩
  · have hj : jsNumber (intRepr y) = jsNumber (intRepr c.year) := by
      unfold intRepr
      rw [e1]
    rw [jsNumber_intRepr, jsNumber_intRepr] at hj
    exact Option.some.inj hj
  · have h2 := congrArg String.mk e2
    rwa [mk_data, mk_data] at h2
  · have h3 := congrArg String.mk e3
    rwa [mk_data, mk_data] at h3
  · have hwd : wid.data = c.warehouseId.data := splitOnCharFn_singleton '_' wid.data _ e4
    have h4 := congrArg String.mk hwd
    rwa [mk_data, mk_data] at h4

theorem canonicalEntry_spec (years : List Int) (ids : List String) (p : String × Int)
    (h : canonicalEntry years ids p = true) :
    ∃ c, parseKey p.1 = some c ∧ wellFormed c = true ∧ p.1 = keyOf c ∧
      c.year ∈ years ∧ c.warehouseId ∈ ids := by
  unfold canonicalEntry at h
  cases hk : parseKey p.1 with
  | none => rw [hk] at h; cases h
  | some c =>
    rw [hk] at h
    simp only [Bool.and_eq_true, beq_iff_eq] at h
    obtain ⟨⟨⟨h1, h2⟩, h3⟩, h4⟩ := h
    exact ⟨c, rfl, h1, h2, by simpa using h3, by simpa using h4⟩

theorem enum_ite_sum (ws : List Warehouse) (hwn : (ws.map (fun w => w.id)).Nodup)
    (cp : ItemKey) (hcp : wellFormed cp = true)
    (hmem : cp.warehouseId ∈ ws.map (fun w => w.id)) (v : Int) (y : Int) :
    ((enumCoords ws y).map (fun c => if keyOf c = keyOf cp then v else 0)).sum =
      if y = cp.year then v else 0 := by
  obtain ⟨_, hclot, hcfmt, _, _⟩ := wellFormed_spec cp hcp
  have hleaf : ∀ (l f : String), l ∈ LOTS → f ∈ FORMATS →
      ((ws.map (fun w => (⟨y, l, f, w.id⟩ : ItemKey))).map
        (fun c => if keyOf c = keyOf cp then v else 0)).sum =
      if y = cp.year ∧ l = cp.lot ∧ f = cp.format then v else 0 := by
    intro l f hlm hfm
    have hlu : ∀ ch ∈ l.data, ch ≠ '_' := fun ch hch => ((LOTS_facts l hlm).2 ch hch).1
    have hfu : ∀ ch ∈ f.data, ch ≠ '_' := fun ch hch => ((FORMATS_facts f hfm).2 ch hch).1
    rw [List.map_map]
    by_cases hcase : y = cp.year ∧ l = cp.lot ∧ f = cp.format
    · obtain ⟨h1, h2, h3⟩ := hcase
      rw [if_pos ⟨h1, h2, h3⟩]
      have hpw : ∀ w ∈ ws,
          ((fun c => if keyOf c = keyOf cp then v else 0) ∘
            (fun w => (⟨y, l, f, w.id⟩ : ItemKey))) w =
          (fun w : Warehouse => if w.id = cp.warehouseId then v else 0) w := by
        intro w _
        show (if keyOf ⟨y, l, f, w.id⟩ = keyOf cp then v else 0) = _
        by_cases hid : w.id = cp.warehouseId
        · rw [if_pos (show keyOf ⟨y, l, f, w.id⟩ = keyOf cp by rw [h1, h2, h3, hid])]
          simp [hid]
        · rw [if_neg (fun he => hid (keyOf_inj_enum y l f w.id cp hlu hfu hcp he).2.2.2)]
          simp [hid]
      rw [sum_map_congr ws _ _ hpw]
      have hswap : ws.map (fun w : Warehouse => if w.id = cp.warehouseId then v else 0) =
          (ws.map (fun w => w.id)).map (fun i => if i = cp.warehouseId then v else 0) := by
        rw [List.map_map]
        rfl
      rw [hswap]
      exact sum_map_ite_unique (ws.map (fun w => w.id)) cp.warehouseId v hwn hmem
    · rw [if_neg hcase]
      have hpz : ∀ w ∈ ws,
          ((fun c => if keyOf c = keyOf cp then v else 0) ∘
            (fun w => (⟨y, l, f, w.id⟩ : ItemKey))) w = (fun _ : Warehouse => (0 : Int)) w := by
        intro w _
        show (if keyOf ⟨y, l, f, w.id⟩ = keyOf cp then v else 0) = 0
        rw [if_neg]
        intro he
        have hco := keyOf_inj_enum y l f w.id cp hlu hfu hcp he
        exact hcase ⟨hco.1, hco.2.1, hco.2.2.1⟩
      rw [sum_map_congr ws _ _ hpz]
      exact sum_map_zero ws
  have hinner : ∀ l ∈ LOTS,
      ((FORMATS.flatMap (fun f => ws.map (fun w => (⟨y, l, f, w.id⟩ : ItemKey)))).map
        (fun c => if keyOf c = keyOf cp then v else 0)).sum =
      (fun l => if y = cp.year ∧ l = cp.lot then v else 0) l := by
    intro l hlm
    rw [sum_map_flatMap]
    rw [sum_map_congr FORMATS _ _ (fun f hfm => hleaf l f hlm hfm)]
    by_cases hyl : y = cp.year ∧ l = cp.lot
    · obtain ⟨h1, h2⟩ := hyl
      show _ = if y = cp.year ∧ l = cp.lot then v else 0
      rw [if_pos ⟨h1, h2⟩]
      have hpt : ∀ f ∈ FORMATS,
          (if y = cp.year ∧ l = cp.lot ∧ f = cp.format then v else 0) =
          (fun f => if f = cp.format then v else 0) f := by
        intro f _
        by_cases hf : f = cp.format
        · rw [if_pos ⟨h1, h2, hf⟩]
          simp [hf]
        · rw [if_neg (fun hcc => hf hcc.2.2)]
          simp [hf]
      rw [sum_map_congr FORMATS _ _ hpt]
      exact sum_map_ite_unique FORMATS cp.format v (by decide) hcfmt
    · show _ = if y = cp.year ∧ l = cp.lot then v else 0
      rw [if_neg hyl]
      have hpt : ∀ f ∈ FORMATS,
          (if y = cp.year ∧ l = cp.lot ∧ f = cp.format then v else 0) =
          (fun _ : String => (0 : Int)) f := by
        intro f _
        exact if_neg (fun hcc => hyl ⟨hcc.1, hcc.2.1⟩)
      rw [sum_map_congr FORMATS _ _ hpt]
      exact sum_map_zero FORMATS
  unfold enumCoords
  rw [sum_map_flatMap]
  rw [sum_map_congr LOTS _ _ hinner]
  by_cases hy : y = cp.year
  · rw [if_pos hy]
    have hpt : ∀ l ∈ LOTS,
        (if y = cp.year ∧ l = cp.lot then v else 0) =
        (fun l => if l = cp.lot then v else 0) l := by
      intro l _
      by_cases hl : l = cp.lot
      · rw [if_pos ⟨hy, hl⟩]
        simp [hl]
      · rw [if_neg (fun hcc => hl hcc.2)]
        simp [hl]
    rw [sum_map_congr LOTS _ _ hpt]
    exact sum_map_ite_unique LOTS cp.lot v (by decide) hclot
  · rw [if_neg hy]
    have hpt : ∀ l ∈ LOTS,
        (if y = cp.year ∧ l = cp.lot then v else 0) = (fun _ : String => (0 : Int)) l := by
      intro l _
      exact if_neg (fun hcc => hy hcc.1)
    rw [sum_map_congr LOTS _ _ hpt]
    exact sum_map_zero LOTS

/-! ### Claim C1: grid side -/

theorem rowTotal_built (ws : List Warehouse) (q : List (String × Int)) (y : Int)
    (l f : String) :
    rowTotal ws ⟨y, l, f, ws.map (fun w => (w.id, lookupOr0 q (keyOf ⟨y, l, f, w.id⟩)))⟩ =
      (ws.map (fun w => lookupOr0 q (keyOf ⟨y, l, f, w.id⟩))).sum := by
  unfold rowTotal
  rw [foldl_add_eq_sum]
  rw [zero_add]
  apply sum_map_congr
  intro w hw
  exact lookupOr0_graph ws (fun i => lookupOr0 q (keyOf ⟨y, l, f, i⟩)) w.id
    (List.mem_map_of_mem _ hw)

theorem filter_flatMap {α β : Type} (l : List α) (f : α → List β) (p : β → Bool) :
    (l.flatMap f).filter p = l.flatMap (fun a => (f a).filter p) := by
  induction l with
  | nil => rfl
  | cons a t ih => simp [List.flatMap_cons, List.filter_append, ih]

theorem gridRows_sum_shape (years : List Int) (ws : List Warehouse)
    (q : List (String × Int)) (fy : Option Int) :
    ((gridRows years ws q fy "").map (rowTotal ws)).sum =
      ((sortDesc years).map (fun y => if matchesYearFilter fy y then
        ((enumCoords ws y).map (fun c => lookupOr0 q (keyOf c))).sum else 0)).sum := by
  have hblock : ∀ y : Int,
      ((LOTS.flatMap (fun lot => FORMATS.map (fun format =>
        ({ year := y, lot := lot, format := format,
            totals := ws.map (fun w =>
              (w.id, lookupOr0 q (keyOf ⟨y, lot, format, w.id⟩))) } : GridRow)))).map
        (rowTotal ws)).sum =
      ((enumCoords ws y).map (fun c => lookupOr0 q (keyOf c))).sum := by
    intro y
    unfold enumCoords
    rw [sum_map_flatMap, sum_map_flatMap]
    apply sum_map_congr
    intro l _
    rw [List.map_map, sum_map_flatMap]
    apply sum_map_congr
    intro f _
    show rowTotal ws ⟨y, l, f, ws.map (fun w =>
      (w.id, lookupOr0 q (keyOf ⟨y, l, f, w.id⟩)))⟩ = _
    rw [List.map_map]
    rw [rowTotal_built]
    apply sum_map_congr
    intro w _
    rfl
  have hgrid : gridRows years ws q fy "" =
      (match fy with
        | none => makeRows years ws q
        | some z => (makeRows years ws q).filter (fun r => r.year == z)) := by
    cases fy <;> rfl
  rw [hgrid]
  cases fy with
  | none =>
    unfold makeRows
    dsimp only
    rw [sum_map_flatMap]
    apply sum_map_congr
    intro y _
    show _ = if matchesYearFilter none y then
      ((enumCoords ws y).map (fun c => lookupOr0 q (keyOf c))).sum else 0
    rw [if_pos (show matchesYearFilter none y = true from rfl)]
    exact hblock y
  | some z =>
    unfold makeRows
    dsimp only
    rw [filter_flatMap]
    rw [sum_map_flatMap]
    apply sum_map_congr
    intro y _
    have hallyear : ∀ r ∈ (LOTS.flatMap (fun lot => FORMATS.map (fun format =>
        ({ year := y, lot := lot, format := format,
            totals := ws.map (fun w =>
              (w.id, lookupOr0 q (keyOf ⟨y, lot, format, w.id⟩))) } : GridRow)))),
        r.year = y := by
      intro r hr
      rw [List.mem_flatMap] at hr
      obtain ⟨l, _, hr2⟩ := hr
      rw [List.mem_map] at hr2
      obtain ⟨f, _, hr3⟩ := hr2
      rw [← hr3]
    show ((List.filter (fun r => r.year == z) _).map (rowTotal ws)).sum =
      if matchesYearFilter (some z) y then
        ((enumCoords ws y).map (fun c => lookupOr0 q (keyOf c))).sum else 0
    cases hyz : (y == z) with
    | true =>
      have hfil : List.filter (fun r => r.year == z) (LOTS.flatMap (fun lot =>
          FORMATS.map (fun format =>
            ({ year := y, lot := lot, format := format,
                totals := ws.map (fun w =>
                  (w.id, lookupOr0 q (keyOf ⟨y, lot, format, w.id⟩))) } : GridRow)))) =
          LOTS.flatMap (fun lot => FORMATS.map (fun format =>
            ({ year := y, lot := lot, format := format,
                totals := ws.map (fun w =>
                  (w.id, lookupOr0 q (keyOf ⟨y, lot, format, w.id⟩))) } : GridRow))) := by
        rw [List.filter_eq_self]
        intro r hr
        rw [hallyear r hr]
        exact hyz
      rw [hfil]
      rw [if_pos (show matchesYearFilter (some z) y = true from hyz)]
      exact hblock y
    | false =>
      have hfil : List.filter (fun r => r.year == z) (LOTS.flatMap (fun lot =>
          FORMATS.map (fun format =>
            ({ year := y, lot := lot, format := format,
                totals := ws.map (fun w =>
                  (w.id, lookupOr0 q (keyOf ⟨y, lot, format, w.id⟩))) } : GridRow)))) = [] := by
        rw [List.filter_eq_nil_iff]
        intro r hr
        rw [hallyear r hr, hyz]
        simp
      rw [hfil]
      rw [if_neg (by rw [show matchesYearFilter (some z) y = (y == z) from rfl, hyz]; simp)]
      rfl

theorem grid_sum_eq_matchTotal (years : List Int) (ws : List Warehouse) (fy : Option Int)
    (hyn : years.Nodup) (hwn : (ws.map (fun w => w.id)).Nodup) :
    ∀ q : List (String × Int), (q.map (fun p => p.1)).Nodup →
      (∀ p ∈ q, canonicalEntry years (ws.map (fun w => w.id)) p = true) →
      ((sortDesc years).map (fun y => if matchesYearFilter fy y then
        ((enumCoords ws y).map (fun c => lookupOr0 q (keyOf c))).sum else 0)).sum =
      matchTotal q fy := by
  intro q
  induction q with
  | nil =>
    intro _ _
    have hz : ∀ y ∈ sortDesc years,
        (if matchesYearFilter fy y then
          ((enumCoords ws y).map (fun c => lookupOr0 [] (keyOf c))).sum else 0) =
        (fun _ : Int => (0 : Int)) y := by
      intro y _
      have h0 : ((enumCoords ws y).map (fun c => lookupOr0 [] (keyOf c))).sum = 0 := by
        rw [sum_map_congr (enumCoords ws y) (fun c => lookupOr0 [] (keyOf c))
          (fun _ => (0 : Int)) (fun c _ => rfl)]
        exact sum_map_zero _
      rw [h0]
      simp
    rw [sum_map_congr _ _ _ hz]
    rw [sum_map_zero]
    rfl
  | cons p q' ih =>
    intro hnq hcan
    have hfresh : p.1 ∉ q'.map (fun e => e.1) := (List.nodup_cons.mp hnq).1
    have hq' := (List.nodup_cons.mp hnq).2
    have hcan' : ∀ e ∈ q', canonicalEntry years (ws.map (fun w => w.id)) e = true :=
      fun e he => hcan e (List.mem_cons_of_mem _ he)
    obtain ⟨cp, hkp, hwf, hkey, hyear, hwid⟩ :=
      canonicalEntry_spec years (ws.map (fun w => w.id)) p (hcan p (List.mem_cons_self _ _))
    have hsplit : ∀ y ∈ sortDesc years,
        (if matchesYearFilter fy y then
          ((enumCoords ws y).map (fun c => lookupOr0 (p :: q') (keyOf c))).sum else 0) =
        (fun y => (if matchesYearFilter fy y then
            ((enumCoords ws y).map (fun c => lookupOr0 q' (keyOf c))).sum else 0) +
          (if matchesYearFilter fy y then
            ((enumCoords ws y).map (fun c =>
              if keyOf c = keyOf cp then p.2 else 0)).sum else 0)) y := by
      intro y _
      cases hm : matchesYearFilter fy y with
      | false => simp [hm]
      | true =>
        simp only [hm, eq_self_iff_true, if_true]
        rw [← sum_map_add]
        apply sum_map_congr
        intro c _
        rw [lookupOr0_cons_split p q' (keyOf c) hfresh]
        congr 1
        by_cases hcc : keyOf c = keyOf cp
        · rw [if_pos hcc]
          rw [if_pos (by rw [hkey, hcc]; exact beq_self_eq_true _)]
        · rw [if_neg hcc]
          rw [if_neg (by
            rw [hkey]
            rw [beq_eq_false_iff_ne.mpr (fun he => hcc he.symm)]
            simp)]
    rw [sum_map_congr _ _ _ hsplit]
    rw [sum_map_add]
    rw [ih hq' hcan']
    have h2 : ∀ y ∈ sortDesc years,
        (if matchesYearFilter fy y then
          ((enumCoords ws y).map (fun c => if keyOf c = keyOf cp then p.2 else 0)).sum
          else 0) =
        (fun y => if y = cp.year then
          (if matchesYearFilter fy cp.year then p.2 else 0) else 0) y := by
      intro y _
      rw [enum_ite_sum ws hwn cp hwf hwid p.2 y]
      by_cases hy : y = cp.year
      · rw [hy]
        cases hm : matchesYearFilter fy cp.year <;> simp [hm]
      · simp [hy]
    rw [sum_map_congr _ _ _ h2]
    rw [sum_map_ite_unique (sortDesc years) cp.year _ (nodup_sortDesc years hyn)
      ((mem_sortDesc _ _).mpr hyear)]
    rw [matchTotal_cons, hkp]
    dsimp only
    ring

/-! ### Claim C1: totals side -/

theorem sumValuesJs_from (m : List (String × Option Int)) : ∀ s : Int,
    (∀ e ∈ m, e.2.isSome) →
    m.foldl (fun acc p =>
      match acc, p.2 with
      | some a, some b => some (a + b)
      | _, _ => none) (some s) = some (s + (m.map (fun e => e.2.getD 0)).sum) := by
  induction m with
  | nil => intro s _; simp
  | cons e t ih =>
    intro s hall
    obtain ⟨b, hb⟩ := Option.isSome_iff_exists.mp (hall e (List.mem_cons_self _ _))
    show t.foldl _ (match some s, e.2 with
      | some a, some b => some (a + b)
      | _, _ => none) = _
    rw [hb]
    dsimp only
    rw [ih (s + b) (fun x hx => hall x (List.mem_cons_of_mem _ hx))]
    rw [List.map_cons, List.sum_cons, hb]
    congr 1
    dsimp only [Option.getD]
    ring

theorem sumValuesJs_all_some (m : List (String × Option Int))
    (h : ∀ e ∈ m, e.2.isSome) :
    sumValuesJs m = some ((m.map (fun e => e.2.getD 0)).sum) := by
  unfold sumValuesJs
  rw [sumValuesJs_from m 0 h]
  simp

theorem map_update_id {α : Type} (t : List (String × α)) (k : String) (v : α)
    (h : k ∉ t.map (fun p => p.1)) :
    t.map (fun p => if p.1 == k then (k, v) else p) = t := by
  induction t with
  | nil => rfl
  | cons p t' ih =>
    have hpk : p.1 ≠ k := by
      intro he
      exact h (by rw [List.map_cons, he]; exact List.mem_cons_self _ _)
    rw [List.map_cons, if_neg (by simp [hpk])]
    rw [ih (fun hm => h (by rw [List.map_cons]; exact List.mem_cons_of_mem _ hm))]

theorem sum_getD_setA (m : List (String × Option Int)) (k : String) (a b : Int)
    (hnodup : (m.map (fun e => e.1)).Nodup) (hget : getA m k = some (some a)) :
    ((setA m k (some b)).map (fun e => e.2.getD 0)).sum =
      (m.map (fun e => e.2.getD 0)).sum - a + b := by
  have hfind : (m.find? (fun p => p.1 == k)).isSome := by
    unfold getA at hget
    cases hf : m.find? (fun p => p.1 == k)
    · rw [hf] at hget; cases hget
    · simp
  unfold setA
  rw [if_pos hfind]
  induction m with
  | nil => cases hfind
  | cons e t ih =>
    cases hek : (e.1 == k) with
    | true =>
      have hke : e.1 = k := beq_iff_eq.mp hek
      have hgete : e.2 = some a := by
        unfold getA at hget
        rw [find?_cons_eq, if_pos hek] at hget
        simpa using hget
      have hknot : k ∉ t.map (fun p => p.1) := by
        rw [List.map_cons] at hnodup
        rw [← hke]
        exact (List.nodup_cons.mp hnodup).1
      rw [List.map_cons, if_pos hek]
      rw [map_update_id t k (some b) hknot]
      rw [List.map_cons, List.sum_cons, List.map_cons, List.sum_cons, hgete]
      dsimp only [Option.getD]
      ring
    | false =>
      have hgett : getA t k = some (some a) := by
        unfold getA at hget ⊢
        rw [find?_cons_eq, if_neg (by simp [hek])] at hget
        exact hget
      have hnodt : (t.map (fun e => e.1)).Nodup := by
        rw [List.map_cons] at hnodup
        exact (List.nodup_cons.mp hnodup).2
      have hfint : (t.find? (fun p => p.1 == k)).isSome := by
        unfold getA at hgett
        cases hf : t.find? (fun p => p.1 == k)
        · rw [hf] at hgett; cases hgett
        · simp
      rw [List.map_cons, if_neg (by simp [hek])]
      rw [List.map_cons, List.sum_cons, List.map_cons, List.sum_cons]
      rw [ih hnodt hgett hfint]
      ring

theorem all_some_setA (m : List (String × Option Int)) (k : String) (b : Int)
    (hall : ∀ e ∈ m, e.2.isSome) :
    ∀ e ∈ setA m k (some b), e.2.isSome := by
  intro e he
  unfold setA at he
  by_cases hf : (m.find? (fun p => p.1 == k)).isSome
  · rw [if_pos hf] at he
    rw [List.mem_map] at he
    obtain ⟨p, hp, hpe⟩ := he
    by_cases hpk : (p.1 == k) = true
    · rw [if_pos hpk] at hpe
      rw [← hpe]
      simp
    · rw [if_neg hpk] at hpe
      rw [← hpe]
      exact hall p hp
  · rw [if_neg hf] at he
    rcases List.mem_append.mp he with h | h
    · exact hall e h
    · simp at h
      rw [h]
      simp

theorem mem_keys_iff_find? {α : Type} (m : List (String × α)) (k : String) :
    k ∈ m.map (fun p => p.1) ↔ (m.find? (fun p => p.1 == k)).isSome := by
  induction m with
  | nil => simp
  | cons e t ih =>
    rw [List.map_cons, find?_cons_eq]
    cases hek : (e.1 == k) with
    | true =>
      have : e.1 = k := beq_iff_eq.mp hek
      simp [this]
    | false =>
      have hne : e.1 ≠ k := beq_eq_false_iff_ne.mp hek
      simp only [List.mem_cons, Bool.false_eq_true, if_false]
      rw [← ih]
      constructor
      · rintro (h | h)
        · exact absurd h.symm hne
        · exact h
      · exact fun h => Or.inr h

theorem grandTotals_fold_sum (fy : Option Int) :
    ∀ (q : List (String × Int)) (m : List (String × Option Int)),
    (∀ e ∈ m, e.2.isSome) → ((m.map (fun e => e.1)).Nodup) →
    (∀ p ∈ q, ∀ c : ItemKey, parseKey p.1 = some c → c.warehouseId ∈ m.map (fun e => e.1)) →
    sumValuesJs (q.foldl (grandTotalsStep fy) m) =
      some ((m.map (fun e => e.2.getD 0)).sum + matchTotal q fy) := by
  intro q
  induction q with
  | nil =>
    intro m hall _ _
    rw [show ([] : List (String × Int)).foldl (grandTotalsStep fy) m = m from rfl]
    rw [sumValuesJs_all_some m hall]
    rw [show matchTotal [] fy = 0 from rfl]
    rw [add_zero]
  | cons p q' ih =>
    intro m hall hnd hin
    show sumValuesJs (q'.foldl (grandTotalsStep fy) (grandTotalsStep fy m p)) = _
    rw [matchTotal_cons]
    cases hk : parseKey p.1 with
    | none =>
      rw [grandTotalsStep_skip fy m p hk]
      rw [ih m hall hnd (fun e he c hc => hin e (List.mem_cons_of_mem _ he) c hc)]
      dsimp only
      rw [zero_add]
    | some c =>
      cases hf : matchesYearFilter fy c.year with
      | false =>
        rw [grandTotalsStep_nomatch fy m p c hk hf]
        rw [ih m hall hnd (fun e he c' hc' => hin e (List.mem_cons_of_mem _ he) c' hc')]
        dsimp only
        rw [if_neg (by rw [hf]; simp), zero_add]
      | true =>
        have hwmem : c.warehouseId ∈ m.map (fun e => e.1) :=
          hin p (List.mem_cons_self _ _) c hk
        have hfindsome := (mem_keys_iff_find? m c.warehouseId).mp hwmem
        obtain ⟨entry, hent⟩ := Option.isSome_iff_exists.mp hfindsome
        have hentm : entry ∈ m := List.mem_of_find?_eq_some hent
        obtain ⟨a, ha⟩ := Option.isSome_iff_exists.mp (hall entry hentm)
        have hget : getA m c.warehouseId = some (some a) := by
          unfold getA
          rw [hent]
          simp [ha]
        rw [grandTotalsStep_match_known fy m p c a hk hf hget]
        have hall' := all_some_setA m c.warehouseId (a + p.2) hall
        have hkeys' := keys_setA_mem m c.warehouseId (some (a + p.2)) hfindsome
        have hnd' : ((setA m c.warehouseId (some (a + p.2))).map (fun e => e.1)).Nodup := by
          rw [hkeys']
          exact hnd
        have hin' : ∀ e ∈ q', ∀ c' : ItemKey, parseKey e.1 = some c' →
            c'.warehouseId ∈ (setA m c.warehouseId (some (a + p.2))).map (fun e => e.1) := by
          intro e he c' hc'
          rw [hkeys']
          exact hin e (List.mem_cons_of_mem _ he) c' hc'
        rw [ih _ hall' hnd' hin']
        rw [sum_getD_setA m c.warehouseId a (a + p.2) hnd hget]
        dsimp only
        rw [if_pos (by rw [hf])]
        congr 1
        ring

/-- C1 (amended): for snapshots whose keys are canonical encodings of
well-formed coordinates with years in the displayed year set and
warehouse ids in the warehouse list (and with duplicate-free keys,
years and warehouse ids), the grand total — the sum of all values of
the per-warehouse totals — equals the sum of `rowTotal` over the Grid
Rows for the same year filter (no warehouse filtering, empty search);
in particular for filter "all".  The claim as stated, over arbitrary
snapshots, fails: entries whose lot or format is not a declared enum
value, whose year is absent from the year set, or whose warehouse id is
unknown are counted by the totals aggregator (possibly as NaN) but
never enumerated by the Grid Builder. -/
theorem c1_totals_consistency (years : List Int) (ws : List Warehouse)
    (q : List (String × Int)) (fy : Option Int)
    (hyn : years.Nodup) (hwn : (ws.map (fun w => w.id)).Nodup)
    (hqn : (q.map (fun p => p.1)).Nodup)
    (hq : ∀ p ∈ q, canonicalEntry years (ws.map (fun w => w.id)) p = true) :
    sumValuesJs (grandTotals ws q fy) =
      some (((gridRows years ws q fy "").map (rowTotal ws)).sum) := by
  rw [gridRows_sum_shape years ws q fy]
  rw [grid_sum_eq_matchTotal years ws fy hyn hwn q hqn hq]
  show sumValuesJs (q.foldl (grandTotalsStep fy)
    (ws.map (fun w => (w.id, (some 0 : Option Int))))) = _
  have hkeys : (ws.map (fun w => (w.id, (some 0 : Option Int)))).map (fun e => e.1) =
      ws.map (fun w => w.id) := by
    rw [List.map_map]
    rfl
  have hall : ∀ e ∈ ws.map (fun w => (w.id, (some 0 : Option Int))), e.2.isSome := by
    intro e he
    rw [List.mem_map] at he
    obtain ⟨w, _, hw⟩ := he
    rw [← hw]
    simp
  have hnd : ((ws.map (fun w => (w.id, (some 0 : Option Int)))).map (fun e => e.1)).Nodup := by
    rw [hkeys]
    exact hwn
  have hin : ∀ p ∈ q, ∀ c : ItemKey, parseKey p.1 = some c →
      c.warehouseId ∈ (ws.map (fun w => (w.id, (some 0 : Option Int)))).map (fun e => e.1) := by
    intro p hp c hc
    obtain ⟨cp, hkp, _, _, _, hwid⟩ :=
      canonicalEntry_spec years (ws.map (fun w => w.id)) p (hq p hp)
    have hccp : c = cp := by
      rw [hc] at hkp
      exact Option.some.inj hkp
    rw [hccp, hkeys]
    exact hwid
  rw [grandTotals_fold_sum fy q _ hall hnd hin]
  have hzero : ((ws.map (fun w => (w.id, (some 0 : Option Int)))).map
      (fun e => e.2.getD 0)).sum = 0 := by
    rw [List.map_map]
    rw [sum_map_congr ws ((fun e : String × Option Int => (e.2).getD 0) ∘
      (fun w => (w.id, (some 0 : Option Int)))) (fun _ => (0 : Int)) (fun w _ => rfl)]
    exact sum_map_zero ws
  rw [hzero, zero_add]

/-- C1 counterexample: a snapshot entry with an undeclared lot value is
summed by the totals aggregator but enumerated by no Grid Row, so the
two totals disagree on an arbitrary snapshot. -/
theorem c1_counterexample :
    sumValuesJs (grandTotals [⟨"roma", "Roma"⟩] [("2024_X_250ml_roma", 7)] none) = some 7 ∧
    ((gridRows [2024] [⟨"roma", "Roma"⟩] [("2024_X_250ml_roma", 7)] none "").map
      (rowTotal [⟨"roma", "Roma"⟩])).sum = 0 ∧
    (7 : Int) ≠ 0 := by
  refine ⟨by decide, by decide, by decide⟩

theorem c1_witness :
    sumValuesJs (grandTotals [⟨"roma", "Roma"⟩] [("2024_A_500ml_roma", 5)] none) =
      some (((gridRows [2024] [⟨"roma", "Roma"⟩] [("2024_A_500ml_roma", 5)] none "").map
        (rowTotal [⟨"roma", "Roma"⟩])).sum) :=
  c1_totals_consistency [2024] [⟨"roma", "Roma"⟩] [("2024_A_500ml_roma", 5)] none
    (by decide) (by decide) (by decide) (by decide)

theorem contains_eq_findIdx? (a : String) : ∀ (l : List String) (i : Nat),
    l.contains a = true ↔ ((List.findIdx? (fun c => c == a) l i).isSome = true) := by
  intro l
  induction l with
  | nil => intro i; simp [List.findIdx?]
  | cons x t ih =>
    intro i
    rw [List.findIdx?_cons]
    by_cases hx : x = a
    · subst hx; simp
    · have h1 : (x == a) = false := beq_eq_false_iff_ne.mpr hx
      have h2 : ¬(a = x) := fun he => hx he.symm
      simp only [h1, Bool.false_eq_true, if_false, List.contains_cons, h2, beq_iff_eq,
        false_or, Bool.or_eq_true, decide_eq_true_eq]
      exact ih (i + 1)

theorem importRowStep_spec (iY iL iF iW iQ : Nat)
    (acc : List (String × Int) × List Int × List (ItemKey × Int)) (r : String) :
    importRowStep iY iL iF iW iQ acc r =
      match specRowRecord iY iL iF iW iQ r with
      | none => acc
      | some (c, v) =>
        (setA acc.1 (keyOf c) v, addYearToSet acc.2.1 c.year, acc.2.2 ++ [(c, v)]) := by
  unfold importRowStep specRowRecord
  dsimp only
  generalize jsNumberU ((jsSplit ',' r).get? iY) = e1
  generalize (jsSplit ',' r).get? iL = e2
  generalize (jsSplit ',' r).get? iF = e3
  generalize (jsSplit ',' r).get? iW = e4
  generalize jsNumberU ((jsSplit ',' r).get? iQ) = e5
  cases e1 <;> cases e2 <;> cases e3 <;> cases e4 <;> cases e5 <;> try rfl
  dsimp only
  split <;> rename_i h <;> simp [h]

theorem fold_ups (iY iL iF iW iQ : Nat) : ∀ (rows : List String)
    (acc : List (String × Int) × List Int × List (ItemKey × Int)),
    (rows.foldl (importRowStep iY iL iF iW iQ) acc).2.2 =
      acc.2.2 ++ rows.filterMap (specRowRecord iY iL iF iW iQ) := by
  intro rows
  induction rows with
  | nil => intro acc; simp
  | cons r rs ih =>
    intro acc
    show (rs.foldl (importRowStep iY iL iF iW iQ)
      (importRowStep iY iL iF iW iQ acc r)).2.2 = _
    rw [importRowStep_spec, List.filterMap_cons]
    cases hs : specRowRecord iY iL iF iW iQ r with
    | none =>
      dsimp only
      exact ih acc
    | some cv =>
      obtain ⟨c, v⟩ := cv
      dsimp only
      rw [ih]
      simp

theorem importCSVPure_isSome (q : List (String × Int)) (ys : List Int) (text : String) :
    (importCSVPure q ys text).isSome = headerOk text := by
  unfold importCSVPure headerOk
  cases hcl : csvLines text with
  | nil => rfl
  | cons header rows =>
    dsimp only
    rw [show ((jsSplit ',' header).map (fun s => String.mk (trimChars s.data))).contains "year"
        = (((jsSplit ',' header).map (fun s => String.mk (trimChars s.data))).findIdx?
          (fun c => c == "year")).isSome from
      Bool.eq_iff_iff.mpr (contains_eq_findIdx? "year" _ 0)]
    rw [show ((jsSplit ',' header).map (fun s => String.mk (trimChars s.data))).contains "lot"
        = (((jsSplit ',' header).map (fun s => String.mk (trimChars s.data))).findIdx?
          (fun c => c == "lot")).isSome from
      Bool.eq_iff_iff.mpr (contains_eq_findIdx? "lot" _ 0)]
    rw [show ((jsSplit ',' header).map (fun s => String.mk (trimChars s.data))).contains "format"
        = (((jsSplit ',' header).map (fun s => String.mk (trimChars s.data))).findIdx?
          (fun c => c == "format")).isSome from
      Bool.eq_iff_iff.mpr (contains_eq_findIdx? "format" _ 0)]
    rw [show ((jsSplit ',' header).map (fun s => String.mk (trimChars s.data))).contains "warehouse"
        = (((jsSplit ',' header).map (fun s => String.mk (trimChars s.data))).findIdx?
          (fun c => c == "warehouse")).isSome from
      Bool.eq_iff_iff.mpr (contains_eq_findIdx? "warehouse" _ 0)]
    rw [show ((jsSplit ',' header).map (fun s => String.mk (trimChars s.data))).contains "qty"
        = (((jsSplit ',' header).map (fun s => String.mk (trimChars s.data))).findIdx?
          (fun c => c == "qty")).isSome from
      Bool.eq_iff_iff.mpr (contains_eq_findIdx? "qty" _ 0)]
    cases h1 : ((jsSplit ',' header).map (fun s => String.mk (trimChars s.data))).findIdx?
        (fun c => c == "year") <;>
      cases h2 : ((jsSplit ',' header).map (fun s => String.mk (trimChars s.data))).findIdx?
        (fun c => c == "lot") <;>
      cases h3 : ((jsSplit ',' header).map (fun s => String.mk (trimChars s.data))).findIdx?
        (fun c => c == "format") <;>
      cases h4 : ((jsSplit ',' header).map (fun s => String.mk (trimChars s.data))).findIdx?
        (fun c => c == "warehouse") <;>
      cases h5 : ((jsSplit ',' header).map (fun s => String.mk (trimChars s.data))).findIdx?
        (fun c => c == "qty") <;>
      rfl

theorem importCSVPure_success (q : List (String × Int)) (ys : List Int) (text : String)
    (header : String) (rows : List String) (iY iL iF iW iQ : Nat)
    (hcl : csvLines text = header :: rows)
    (h1 : ((jsSplit ',' header).map (fun s => String.mk (trimChars s.data))).findIdx?
      (fun c => c == "year") = some iY)
    (h2 : ((jsSplit ',' header).map (fun s => String.mk (trimChars s.data))).findIdx?
      (fun c => c == "lot") = some iL)
    (h3 : ((jsSplit ',' header).map (fun s => String.mk (trimChars s.data))).findIdx?
      (fun c => c == "format") = some iF)
    (h4 : ((jsSplit ',' header).map (fun s => String.mk (trimChars s.data))).findIdx?
      (fun c => c == "warehouse") = some iW)
    (h5 : ((jsSplit ',' header).map (fun s => String.mk (trimChars s.data))).findIdx?
      (fun c => c == "qty") = some iQ) :
    importCSVPure q ys text =
      some ((rows.foldl (importRowStep iY iL iF iW iQ) (q, dedupKeepFirst ys, [])).1,
        sortDesc (rows.foldl (importRowStep iY iL iF iW iQ) (q, dedupKeepFirst ys, [])).2.1,
        rows.filterMap (specRowRecord iY iL iF iW iQ)) := by
  unfold importCSVPure
  rw [hcl]
  dsimp only
  rw [h1, h2, h3, h4, h5]
  dsimp only
  rw [fold_ups]
  rfl

/-- C7: CSV import fails as a whole exactly when there is no non-empty
line or the header line is missing one of the five required columns
(`importCSVPure` returns `none` iff `headerOk` is false); when the
header resolves all five column indices, the import succeeds, every
data row is either skipped (when its year parses to 0 or NaN, its lot,
format or warehouse cell is missing or empty, or its qty parses to
NaN) or accepted with its clamped record, skipped rows never abort the
batch, and the accepted batch is exactly the `filterMap` of the
per-row validation over the data rows.  (The code keeps no counter of
rejected rows, and a numeric year of 0 is also rejected; see the
counterexample.) -/
theorem c7_import_error_handling (q : List (String × Int)) (ys : List Int) (text : String) :
    ((importCSVPure q ys text).isSome = headerOk text) ∧
    (∀ (header : String) (rows : List String) (iY iL iF iW iQ : Nat),
      csvLines text = header :: rows →
      ((jsSplit ',' header).map (fun s => String.mk (trimChars s.data))).findIdx?
        (fun c => c == "year") = some iY →
      ((jsSplit ',' header).map (fun s => String.mk (trimChars s.data))).findIdx?
        (fun c => c == "lot") = some iL →
      ((jsSplit ',' header).map (fun s => String.mk (trimChars s.data))).findIdx?
        (fun c => c == "format") = some iF →
      ((jsSplit ',' header).map (fun s => String.mk (trimChars s.data))).findIdx?
        (fun c => c == "warehouse") = some iW →
      ((jsSplit ',' header).map (fun s => String.mk (trimChars s.data))).findIdx?
        (fun c => c == "qty") = some iQ →
      importCSVPure q ys text =
        some ((rows.foldl (importRowStep iY iL iF iW iQ) (q, dedupKeepFirst ys, [])).1,
          sortDesc (rows.foldl (importRowStep iY iL iF iW iQ) (q, dedupKeepFirst ys, [])).2.1,
          rows.filterMap (specRowRecord iY iL iF iW iQ))) :=
  ⟨importCSVPure_isSome q ys text,
   fun header rows iY iL iF iW iQ hcl h1 h2 h3 h4 h5 =>
     importCSVPure_success q ys text header rows iY iL iF iW iQ hcl h1 h2 h3 h4 h5⟩

theorem c7_witness :
    (csvLines "year,lot,format,warehouse,qty\n2024,A,500ml,roma,7\nbad\n2025,B,250ml,neci,-3"
      = "year,lot,format,warehouse,qty" :: ["2024,A,500ml,roma,7", "bad", "2025,B,250ml,neci,-3"]) ∧
    importCSVPure [] [2030]
        "year,lot,format,warehouse,qty\n2024,A,500ml,roma,7\nbad\n2025,B,250ml,neci,-3" =
      some ((["2024,A,500ml,roma,7", "bad", "2025,B,250ml,neci,-3"].foldl
          (importRowStep 0 1 2 3 4) ([], dedupKeepFirst [2030], [])).1,
        sortDesc (["2024,A,500ml,roma,7", "bad", "2025,B,250ml,neci,-3"].foldl
          (importRowStep 0 1 2 3 4) ([], dedupKeepFirst [2030], [])).2.1,
        ["2024,A,500ml,roma,7", "bad", "2025,B,250ml,neci,-3"].filterMap
          (specRowRecord 0 1 2 3 4)) :=
  ⟨by decide,
   (c7_import_error_handling [] [2030]
      "year,lot,format,warehouse,qty\n2024,A,500ml,roma,7\nbad\n2025,B,250ml,neci,-3").2
     "year,lot,format,warehouse,qty" ["2024,A,500ml,roma,7", "bad", "2025,B,250ml,neci,-3"]
     0 1 2 3 4 (by decide) (by decide) (by decide) (by decide) (by decide) (by decide)⟩

theorem c7_counterexample :
    importCSVPure [] [] "year,lot,format,warehouse,qty\n2024,A,500ml,roma,7\n0,B,250ml,neci,5" =
      some ([("2024_A_500ml_roma", 7)], [2024], [(⟨2024, "A", "500ml", "roma"⟩, 7)]) := by
  decide

/-! ### Claim C4 -/

theorem csvEscape_id (s : String) (h : ∀ c ∈ s.data, c ≠ ',' ∧ c ≠ '"' ∧ c ≠ '\n') :
    csvEscape s = s := by
  unfold csvEscape
  have hall : s.data.any (fun c => c == ',' || c == '"' || c == '\n') = false := by
    rw [List.any_eq_false]
    intro c hc
    obtain ⟨h1, h2, h3⟩ := h c hc
    simp [h1, h2, h3]
  rw [hall]
  simp

theorem splitOnCharFn_intercal (sep : Char) : ∀ (chunks : List (List Char)),
    chunks ≠ [] → (∀ ch ∈ chunks, ∀ c ∈ ch, c ≠ sep) →
    splitOnCharFn sep (intercalChars [sep] chunks) = chunks := by
  intro chunks
  induction chunks with
  | nil => intro h; exact absurd rfl h
  | cons x xs ih =>
    intro _ hns
    cases xs with
    | nil =>
      show splitOnCharFn sep x = [x]
      exact splitOnCharFn_no_sep sep x (hns x (by simp))
    | cons y ys =>
      show splitOnCharFn sep (x ++ [sep] ++ intercalChars [sep] (y :: ys)) = _
      rw [List.append_assoc]
      rw [show [sep] ++ intercalChars [sep] (y :: ys) = sep :: intercalChars [sep] (y :: ys)
        from rfl]
      rw [splitOnCharFn_append sep x _ (hns x (by simp))]
      rw [ih (by simp) (fun ch hch => hns ch (by simp [hch]))]

theorem mem_intercalChars (sep : Char) : ∀ (chunks : List (List Char)) (c : Char),
    c ∈ intercalChars [sep] chunks → c = sep ∨ ∃ ch ∈ chunks, c ∈ ch := by
  intro chunks
  induction chunks with
  | nil =>
    intro c h
    exact absurd h (by simp [intercalChars])
  | cons x xs ih =>
    intro c h
    cases xs with
    | nil => exact Or.inr ⟨x, by simp, h⟩
    | cons y ys =>
      rcases List.mem_append.mp h with h1 | h2
      · rcases List.mem_append.mp h1 with ha | hb
        · exact Or.inr ⟨x, by simp, ha⟩
        · exact Or.inl (by simpa using hb)
      · rcases ih c h2 with ha | ⟨ch, hch, hc⟩
        · exact Or.inl ha
        · exact Or.inr ⟨ch, by simp [hch], hc⟩

theorem intercalChars_ne_nil (sep : List Char) (x : List Char) (xs : List (List Char))
    (hx : x ≠ []) : intercalChars sep (x :: xs) ≠ [] := by
  cases xs with
  | nil => exact hx
  | cons y ys =>
    show x ++ sep ++ intercalChars sep (y :: ys) ≠ []
    simp only [ne_eq, List.append_eq_nil, not_and]
    intro hxy
    exact absurd hxy.1 hx

theorem jsSplit_joinComma (fields : List String) (hne : fields ≠ [])
    (h : ∀ s ∈ fields, ∀ c ∈ s.data, c ≠ ',') :
    jsSplit ',' (joinComma fields) = fields := by
  unfold jsSplit joinComma
  rw [data_mk]
  rw [splitOnCharFn_intercal ',' (fields.map String.data) (by simpa using hne)
    (fun ch hch c hc => by
      obtain ⟨s, hs, he⟩ := List.mem_map.mp hch
      exact h s hs c (he ▸ hc))]
  rw [List.map_map]
  have : fields.map (String.mk ∘ String.data) = fields.map id :=
    List.map_congr_left (fun s _ => mk_data s)
  rw [this, List.map_id]

theorem csvLines_joinNl (ls : List String) (hne : ls ≠ [])
    (h : ∀ s ∈ ls, s ≠ "" ∧ ∀ c ∈ s.data, c ≠ '\n' ∧ c ≠ '\r') :
    csvLines (joinNl ls) = ls := by
  unfold csvLines joinNl splitLinesChars
  rw [data_mk]
  rw [splitOnCharFn_intercal '\n' (ls.map String.data) (by simpa using hne)
    (fun ch hch c hc => by
      obtain ⟨s, hs, he⟩ := List.mem_map.mp hch
      exact ((h s hs).2 c (he ▸ hc)).1)]
  rw [List.map_map, List.map_map]
  have h1 : ls.map ((String.mk ∘ stripCR) ∘ String.data) = ls.map id := by
    apply List.map_congr_left
    intro s hs
    show String.mk (stripCR s.data) = s
    rw [stripCR_eq_self s.data (fun hmem => ((h s hs).2 '\r' hmem).2 rfl), mk_data]
  rw [h1, List.map_id]
  apply List.filter_eq_self.mpr
  intro s hs
  exact bne_iff_ne.mpr (h s hs).1

theorem exportableEntry_spec (p : String × Int) (h : exportableEntry p = true) :
    ∃ c, parseKey p.1 = some c ∧ wellFormed c = true ∧ p.1 = keyOf c ∧ 0 ≤ p.2 := by
  unfold exportableEntry at h
  cases hp : parseKey p.1 with
  | none => rw [hp] at h; exact absurd h (by simp)
  | some c =>
    rw [hp] at h
    simp only [Bool.and_eq_true, beq_iff_eq, decide_eq_true_eq] at h
    exact ⟨c, rfl, h.1.1, h.1.2, h.2⟩

theorem setA_fresh {α : Type} (m : List (String × α)) (k : String) (v : α)
    (h : ∀ p ∈ m, p.1 ≠ k) : setA m k v = m ++ [(k, v)] := by
  unfold setA
  have hn : m.find? (fun p => p.1 == k) = none :=
    List.find?_eq_none.mpr (fun p hp => by simpa using h p hp)
  rw [hn]
  rfl

theorem exportFields_facts (c : ItemKey) (hwf : wellFormed c = true) (v : Int) :
    ∀ s ∈ [intRepr c.year, c.lot, c.format, c.warehouseId, intRepr v],
      s ≠ "" ∧ ∀ ch ∈ s.data, ch ≠ ',' ∧ ch ≠ '"' ∧ ch ≠ '\n' ∧ ch ≠ '\r' := by
  obtain ⟨hy, hlot, hfmt, hwid, hslug⟩ := wellFormed_spec c hwf
  have hint : ∀ (y : Int), intRepr y ≠ "" ∧ ∀ ch ∈ (intRepr y).data,
      ch ≠ ',' ∧ ch ≠ '"' ∧ ch ≠ '\n' ∧ ch ≠ '\r' := by
    intro y
    constructor
    · intro he
      exact intReprChars_ne_nil y (congrArg String.data he)
    · intro ch hch
      have hs := intReprChars_no_special y ch hch
      exact ⟨hs.2.1, hs.2.2.1, hs.2.2.2.1, hs.2.2.2.2⟩
  intro s hs
  simp only [List.mem_cons, List.not_mem_nil, or_false] at hs
  rcases hs with rfl | rfl | rfl | rfl | rfl
  · exact hint c.year
  · obtain ⟨hne, hch⟩ := LOTS_facts c.lot hlot
    exact ⟨hne, fun ch h =>
      ⟨(hch ch h).2.1, (hch ch h).2.2.1, (hch ch h).2.2.2.1, (hch ch h).2.2.2.2⟩⟩
  · obtain ⟨hne, hch⟩ := FORMATS_facts c.format hfmt
    exact ⟨hne, fun ch h =>
      ⟨(hch ch h).2.1, (hch ch h).2.2.1, (hch ch h).2.2.2.1, (hch ch h).2.2.2.2⟩⟩
  · refine ⟨hwid, fun ch h => ?_⟩
    have hs := slugChar_ne ch (hslug ch h)
    exact ⟨hs.2.1, hs.2.2.1, hs.2.2.2.1, hs.2.2.2.2⟩
  · exact hint v

theorem exportFields_escape (c : ItemKey) (hwf : wellFormed c = true) (v : Int) :
    [intRepr c.year, c.lot, c.format, c.warehouseId, intRepr v].map csvEscape
      = [intRepr c.year, c.lot, c.format, c.warehouseId, intRepr v] := by
  have hf := exportFields_facts c hwf v
  have h1 : [intRepr c.year, c.lot, c.format, c.warehouseId, intRepr v].map csvEscape
      = [intRepr c.year, c.lot, c.format, c.warehouseId, intRepr v].map id :=
    List.map_congr_left (fun s hs => csvEscape_id s (fun ch h =>
      ⟨((hf s hs).2 ch h).1, ((hf s hs).2 ch h).2.1, ((hf s hs).2 ch h).2.2.1⟩))
  rw [h1, List.map_id]

theorem specRowRecord_line (c : ItemKey) (v : Int) (hwf : wellFormed c = true) (hv : 0 ≤ v) :
    specRowRecord 0 1 2 3 4
      (joinComma ([intRepr c.year, c.lot, c.format, c.warehouseId, intRepr v].map csvEscape))
      = some (c, v) := by
  obtain ⟨hy, hlot, hfmt, hwid, _⟩ := wellFormed_spec c hwf
  rw [exportFields_escape c hwf v]
  unfold specRowRecord
  rw [jsSplit_joinComma _ (by simp)
    (fun s hs ch h => ((exportFields_facts c hwf v s hs).2 ch h).1)]
  have hy0 : (c.year == 0) = false := beq_eq_false_iff_ne.mpr (by omega)
  have h2 : (c.lot == "") = false :=
    beq_eq_false_iff_ne.mpr (LOTS_facts c.lot hlot).1
  have h3 : (c.format == "") = false :=
    beq_eq_false_iff_ne.mpr (FORMATS_facts c.format hfmt).1
  have h4 : (c.warehouseId == "") = false := beq_eq_false_iff_ne.mpr hwid
  have hmax : max 0 v = v := max_eq_right hv
  simp [jsNumberU, jsNumber_intRepr, hy0, h2, h3, h4, hmax]

theorem export_line_facts (q : List (String × Int)) (hq : ∀ p ∈ q, exportableEntry p = true) :
    ∀ s ∈ q.filterMap (fun p => (parseKey p.1).map (fun c =>
        joinComma ([intRepr c.year, c.lot, c.format, c.warehouseId, intRepr p.2].map csvEscape))),
      s ≠ "" ∧ ∀ ch ∈ s.data, ch ≠ '\n' ∧ ch ≠ '\r' := by
  intro s hs
  obtain ⟨p, hp, hLs⟩ := List.mem_filterMap.mp hs
  obtain ⟨c, hpc, hwf, hkey, hv⟩ := exportableEntry_spec p (hq p hp)
  rw [hpc] at hLs
  simp only [Option.map_some', Option.some.injEq] at hLs
  subst hLs
  rw [exportFields_escape c hwf p.2]
  constructor
  · intro he
    exact intercalChars_ne_nil [','] (intRepr c.year).data
      ([c.lot.data, c.format.data, c.warehouseId.data, (intRepr p.2).data])
      (fun h0 => intReprChars_ne_nil c.year h0) (congrArg String.data he)
  · intro ch hch
    rcases mem_intercalChars ','
        ([intRepr c.year, c.lot, c.format, c.warehouseId, intRepr p.2].map String.data) ch hch
      with rfl | ⟨chk, hchk, hc⟩
    · exact ⟨by decide, by decide⟩
    · obtain ⟨fs, hfs, he⟩ := List.mem_map.mp hchk
      have hf := (exportFields_facts c hwf p.2 fs hfs).2 ch (he ▸ hc)
      exact ⟨hf.2.2.1, hf.2.2.2⟩

theorem export_lines_length : ∀ (q : List (String × Int)),
    (∀ p ∈ q, exportableEntry p = true) →
    ((q.filterMap (fun p => (parseKey p.1).map (fun c =>
        joinComma ([intRepr c.year, c.lot, c.format, c.warehouseId, intRepr p.2].map
          csvEscape)))).filterMap (specRowRecord 0 1 2 3 4)).length = q.length := by
  intro q
  induction q with
  | nil => intro _; rfl
  | cons p ps ih =>
    intro hq
    obtain ⟨c, hpc, hwf, hkey, hv⟩ := exportableEntry_spec p (hq p (by simp))
    rw [List.filterMap_cons, hpc]
    simp only [Option.map_some']
    rw [List.filterMap_cons, specRowRecord_line c p.2 hwf hv]
    dsimp only
    rw [List.length_cons, ih (fun r hr => hq r (by simp [hr])), List.length_cons]

theorem export_fold_fst : ∀ (q : List (String × Int))
    (acc : List (String × Int) × List Int × List (ItemKey × Int)),
    (∀ p ∈ q, exportableEntry p = true) →
    (q.map Prod.fst).Nodup →
    (∀ p ∈ q, ∀ p' ∈ acc.1, p'.1 ≠ p.1) →
    ((q.filterMap (fun p => (parseKey p.1).map (fun c =>
        joinComma ([intRepr c.year, c.lot, c.format, c.warehouseId, intRepr p.2].map
          csvEscape)))).foldl (importRowStep 0 1 2 3 4) acc).1 = acc.1 ++ q := by
  intro q
  induction q with
  | nil => intro acc _ _ _; simp
  | cons p ps ih =>
    intro acc hq hnd hfresh
    obtain ⟨c, hpc, hwf, hkey, hv⟩ := exportableEntry_spec p (hq p (by simp))
    rw [List.filterMap_cons, hpc]
    simp only [Option.map_some']
    rw [List.foldl_cons, importRowStep_spec, specRowRecord_line c p.2 hwf hv]
    dsimp only
    have hfresh1 : ∀ p' ∈ acc.1, p'.1 ≠ keyOf c := fun p' hp' => hkey ▸ hfresh p (by simp) p' hp'
    rw [setA_fresh acc.1 (keyOf c) p.2 hfresh1]
    have hnd' := List.nodup_cons.mp hnd
    have hfresh' : ∀ r ∈ ps, ∀ p' ∈ acc.1 ++ [(keyOf c, p.2)], p'.1 ≠ r.1 := by
      intro r hr p' hp'
      rcases List.mem_append.mp hp' with h1 | h2
      · exact hfresh r (by simp [hr]) p' h1
      · have hp2 : p' = (keyOf c, p.2) := by simpa using h2
        subst hp2
        show keyOf c ≠ r.1
        rw [← hkey]
        intro he
        exact hnd'.1 (by rw [he]; exact List.mem_map_of_mem Prod.fst hr)
    rw [ih (acc.1 ++ [(keyOf c, p.2)], addYearToSet acc.2.1 c.year, acc.2.2 ++ [(c, p.2)])
      (fun r hr => hq r (by simp [hr])) hnd'.2 hfresh']
    rw [← hkey]
    simp

set_option maxHeartbeats 1600000 in
/-- C4: for every quantity snapshot with duplicate-free keys, all of
whose entries are exportable (the key is the canonical encoding
`keyOf c` of a well-formed coordinate `c` and the value is
non-negative), importing the CSV text produced by `exportCSV` starting
from an empty state reproduces the snapshot exactly, and the accepted
batch has one record per snapshot entry (zero rejected rows).  The
claim fails for arbitrary decodable snapshots: a decodable but
non-canonical key (extra underscore segments) or a negative value is
not reproduced; see the counterexample. -/
theorem c4_csv_roundtrip (q : List (String × Int))
    (hqn : (q.map Prod.fst).Nodup)
    (hq : ∀ p ∈ q, exportableEntry p = true) :
    ∃ ys ups, importCSVPure [] [] (exportCSVText q) = some (q, ys, ups) ∧
      ups.length = q.length := by
  have hlines : csvLines (exportCSVText q) =
      csvHeader :: q.filterMap (fun p => (parseKey p.1).map (fun c =>
        joinComma ([intRepr c.year, c.lot, c.format, c.warehouseId, intRepr p.2].map
          csvEscape))) := by
    unfold exportCSVText
    apply csvLines_joinNl
    · simp
    · intro s hs
      rcases List.mem_cons.mp hs with rfl | hs2
      · exact ⟨by decide, by decide⟩
      · exact export_line_facts q hq s hs2
  have himp := importCSVPure_success [] [] (exportCSVText q) csvHeader
    (q.filterMap (fun p => (parseKey p.1).map (fun c =>
      joinComma ([intRepr c.year, c.lot, c.format, c.warehouseId, intRepr p.2].map
        csvEscape)))) 0 1 2 3 4 hlines
    (by decide) (by decide) (by decide) (by decide) (by decide)
  have hfst : ((q.filterMap (fun p => (parseKey p.1).map (fun c =>
      joinComma ([intRepr c.year, c.lot, c.format, c.warehouseId, intRepr p.2].map
        csvEscape)))).foldl (importRowStep 0 1 2 3 4)
      (([] : List (String × Int)), dedupKeepFirst [], ([] : List (ItemKey × Int)))).1 = q := by
    have h := export_fold_fst q ([], dedupKeepFirst [], []) hq hqn
      (fun r _ p' hp' => absurd hp' (List.not_mem_nil p'))
    simpa using h
  rw [hfst] at himp
  exact ⟨_, _, himp, export_lines_length q hq⟩

theorem c4_witness :
    (([("2024_A_500ml_roma", 5), ("2025_B_250ml_neci", 0)] : List (String × Int)).map
        Prod.fst).Nodup ∧
    ∃ ys ups,
      importCSVPure [] []
          (exportCSVText [("2024_A_500ml_roma", 5), ("2025_B_250ml_neci", 0)]) =
        some ([("2024_A_500ml_roma", 5), ("2025_B_250ml_neci", 0)], ys, ups) ∧
      ups.length = 2 :=
  ⟨by decide,
   c4_csv_roundtrip [("2024_A_500ml_roma", 5), ("2025_B_250ml_neci", 0)]
     (by decide) (by decide)⟩

theorem c4_counterexample :
    (parseKey "2024_A_500ml_roma_x").map wellFormed = some true ∧
    (importCSVPure [] [] (exportCSVText [("2024_A_500ml_roma_x", -1)])).map Prod.fst =
      some [("2024_A_500ml_roma", 0)] ∧
    some [(("2024_A_500ml_roma_x" : String), (-1 : Int))] ≠
      (importCSVPure [] [] (exportCSVText [("2024_A_500ml_roma_x", -1)])).map Prod.fst := by
  decide
